import Mathlib

set_option allowUnsafeReducibility true

attribute [semireducible] Rat.add Rat.mul Rat.inv Rat.sub Rat.ofScientific

/-!
Verification development for the collision / contact-tracking / sprite-shatter
core of the `electro_shoot` repository.

The Rust source is shallowly embedded:
* `f64` scalars become `ℚ` (all geometric predicates are polynomial
  comparisons, exact over the rationals);
* `nalgebra::UnitComplex<f64>` becomes `Rot` (a pair of components; the
  unit-norm invariant `re² + im² = 1` of `UnitComplex` is carried as an
  explicit hypothesis where a proof needs it);
* `nalgebra::Isometry2<f64>` becomes `Iso` (rotation + translation);
* `slotmap::HopSlotMap` pools become association lists in slot order;
* particle insertions are abstracted to event counts (their pixel/texture
  payload is irrelevant to every claim), and `Enemy::explode` invocations
  from inside `Projectile::tick` are recorded as events;
* `UnitComplex::new θ` (cosine/sine of an angle) is kept as an explicit
  function parameter `rotAngle : ℚ → Rot`; theorems that need it only use
  it at angle `0`, where `rotAngle 0 = Rot.one` mirrors `cos 0 = 1`,
  `sin 0 = 0`.
-/

namespace ElectroShoot

/-- 2-dimensional vector over `ℚ` (embeds `nalgebra::Vector2<f64>`). -/
structure Vec2 where
  x : ℚ
  y : ℚ
deriving DecidableEq, Repr

instance : Add Vec2 := ⟨fun a b => ⟨a.x + b.x, a.y + b.y⟩⟩

instance : Sub Vec2 := ⟨fun a b => ⟨a.x - b.x, a.y - b.y⟩⟩

instance : Neg Vec2 := ⟨fun a => ⟨-a.x, -a.y⟩⟩

/-- Componentwise absolute value (`Vector2::abs`). -/
def Vec2.absV (v : Vec2) : Vec2 := ⟨|v.x|, |v.y|⟩

/-- `Vector2::magnitude_squared`. -/
def Vec2.magSq (v : Vec2) : ℚ := v.x ^ 2 + v.y ^ 2

/-- Scalar multiple of a vector (`v * dt`). -/
def Vec2.scale (v : Vec2) (c : ℚ) : Vec2 := ⟨v.x * c, v.y * c⟩

/-- Rotation component of an isometry: embeds `nalgebra::UnitComplex<f64>`
(the pair `(cos θ, sin θ)`; the unit-norm invariant is an explicit
hypothesis where needed). -/
structure Rot where
  re : ℚ
  im : ℚ
deriving DecidableEq, Repr

/-- The identity rotation (angle `0`). -/
def Rot.one : Rot := ⟨1, 0⟩

/-- Composition of rotations (complex multiplication). -/
def Rot.mulR (a b : Rot) : Rot :=
  ⟨a.re * b.re - a.im * b.im, a.re * b.im + a.im * b.re⟩

/-- `UnitComplex::inverse` = complex conjugate (valid under the unit-norm
invariant). -/
def Rot.conj (a : Rot) : Rot := ⟨a.re, -a.im⟩

/-- Apply a rotation to a vector (`rotation * vector`). -/
def Rot.apply (a : Rot) (v : Vec2) : Vec2 :=
  ⟨a.re * v.x - a.im * v.y, a.im * v.x + a.re * v.y⟩

/-- The `UnitComplex` unit-norm invariant. -/
def Rot.IsUnit (a : Rot) : Prop := a.re ^ 2 + a.im ^ 2 = 1

/-- Embeds `nalgebra::Isometry2<f64>`: rotation followed by translation,
`p ↦ rot ⬝ p + trans`. -/
structure Iso where
  rot : Rot
  trans : Vec2
deriving DecidableEq, Repr

/-- Isometry composition `a * b` (apply `b` first). -/
def Iso.comp (a b : Iso) : Iso :=
  ⟨a.rot.mulR b.rot, a.trans + a.rot.apply b.trans⟩

/-- `Isometry2::inverse`: `(R, t)⁻¹ = (R⁻¹, -(R⁻¹ t))`. -/
def Iso.inv (a : Iso) : Iso :=
  ⟨a.rot.conj, -(a.rot.conj.apply a.trans)⟩

/-- Apply an isometry to a point (`iso * point`). -/
def Iso.applyP (a : Iso) (p : Vec2) : Vec2 :=
  a.rot.apply p + a.trans

/-- `Isometry2::new(v, 0.0)`: pure translation (the source only builds
isometries with angle `0` this way, in the widened-hitbox test). -/
def Iso.ofTranslation (v : Vec2) : Iso := ⟨Rot.one, v⟩

/-- The identity isometry. -/
def Iso.id : Iso := ⟨Rot.one, ⟨0, 0⟩⟩

/-- Embeds `shape::Shape`. -/
inductive Shape where
  | point : Shape
  | circle (radius : ℚ) : Shape
  | rectangle (half_size : Vec2) : Shape
deriving DecidableEq, Repr

/-- `shape.rs: fn circle_point`. -/
def circle_point (radius : ℚ) (offset : Vec2) : Bool :=
  offset.magSq < radius ^ 2

/-- `shape.rs: fn circle_circle`. -/
def circle_circle (radius_a radius_b : ℚ) (offset : Vec2) : Bool :=
  offset.magSq < (radius_a + radius_b) ^ 2

/-- `shape.rs: fn rectangle_point`. -/
def rectangle_point (half_size : Vec2) (offset : Vec2) : Bool :=
  |offset.x| ≤ half_size.x ∧ |offset.y| ≤ half_size.y

/-- `shape.rs: fn rectangle_circle`. -/
def rectangle_circle (half_size : Vec2) (radius : ℚ) (offset : Vec2) : Bool :=
  let offset := offset.absV
  if offset.y ≤ half_size.y then
    offset.x ≤ half_size.x + radius
  else if offset.x ≤ half_size.x then
    offset.y ≤ half_size.y + radius
  else
    circle_point radius (offset - half_size)

/-- `shape.rs: fn bounding_box_of_rectangle`. -/
def bounding_box_of_rectangle (half_size : Vec2) (rotation : Rot) : Vec2 :=
  let a := (rotation.apply half_size).absV
  let b := (rotation.apply ⟨half_size.x, -half_size.y⟩).absV
  ⟨max a.x b.x, max a.y b.y⟩

/-- `shape.rs: fn rectangle_rectangle_one_sided`. -/
def rectangle_rectangle_one_sided (half_size_a half_size_b : Vec2)
    (offset : Iso) : Bool :=
  let half_size_b := bounding_box_of_rectangle half_size_b offset.rot
  let offset := offset.trans.absV
  offset.x ≤ half_size_a.x + half_size_b.x ∧
    offset.y ≤ half_size_a.y + half_size_b.y

/-- `shape.rs: fn rectangle_rectangle`. -/
def rectangle_rectangle (half_size_a half_size_b : Vec2) (offset : Iso) : Bool :=
  rectangle_rectangle_one_sided half_size_a half_size_b offset &&
    rectangle_rectangle_one_sided half_size_b half_size_a offset.inv

/-- `shape.rs: Shape::is_colliding`; `offset` carries `self`'s frame into
`other`'s frame. -/
def Shape.is_colliding (a b : Shape) (offset : Iso) : Bool :=
  match a, b with
  | .point, .point => false
  | .point, .circle radius => circle_point radius offset.trans
  | .circle radius, .point => circle_point radius offset.trans
  | .circle radius_a, .circle radius_b =>
      circle_circle radius_a radius_b offset.trans
  | .point, .rectangle size => rectangle_point size offset.inv.trans
  | .rectangle size, .point => rectangle_point size offset.trans
  | .circle radius, .rectangle size =>
      rectangle_circle size radius offset.inv.trans
  | .rectangle size, .circle radius =>
      rectangle_circle size radius offset.trans
  | .rectangle size_a, .rectangle size_b =>
      rectangle_rectangle size_a size_b offset

/-!  `object.rs`  -/

/-- Embeds `object::Transform`. -/
structure Transform where
  position : Iso
  linear_velocity : Vec2
  angular_velocity : ℚ
deriving DecidableEq, Repr

/-- `Transform::tick`: `append_translation_mut(linear_velocity * dt)` adds to
the translation and leaves the rotation; `append_rotation_wrt_center_mut
(UnitComplex::new(angular_velocity * dt))` composes the angle-rotation on the
left of the rotation and leaves the translation.  `rotAngle` stands for
`UnitComplex::new` (cosine/sine of its argument); theorems only ever use it
at angle `0` with the hypothesis `rotAngle 0 = Rot.one`. -/
def Transform.tick (rotAngle : ℚ → Rot) (t : Transform) (dt : ℚ) : Transform :=
  { t with
      position :=
        ⟨(rotAngle (t.angular_velocity * dt)).mulR t.position.rot,
          t.position.trans + t.linear_velocity.scale dt⟩ }

/-- Embeds `object::Object` (`Shape` + `Transform`). -/
structure Object where
  shape : Shape
  transform : Transform
deriving DecidableEq, Repr

/-- `Object::offset_to`: `self.position.inverse() * other.position`. -/
def Object.offset_to (a b : Object) : Iso :=
  a.transform.position.inv.comp b.transform.position

/-- `Object::is_colliding`. -/
def Object.is_colliding (a b : Object) : Bool :=
  a.shape.is_colliding b.shape (a.offset_to b)

/-- `Object` forwarding of `Transform::tick` (the `Deref`-based
`self.object.tick(dt)` call). -/
def Object.tick (rotAngle : ℚ → Rot) (o : Object) (dt : ℚ) : Object :=
  { o with transform := o.transform.tick rotAngle dt }

/-!  `enemy.rs` (the parts `Projectile::tick` interacts with)  -/

/-- Embeds `enemy::Enemy` restricted to the fields read or written by
`Projectile::tick` and `Game::tick` (`direction`, `properties` and the
brightness pair only feed `Enemy::tick`/`draw`, which no claim touches;
`brightness_update_time` is kept because `Enemy::hit` writes it). -/
structure Enemy where
  object : Object
  health : ℕ
  time_since_hit : ℚ
  brightness_update_time : ℚ
deriving DecidableEq, Repr

/-- `Enemy::hit`: saturating subtraction on `u32` health (`ℕ` subtraction is
exactly saturating), reset `time_since_hit`, force a brightness update. -/
def Enemy.hit (e : Enemy) (damage : ℕ) : Enemy :=
  { e with
      health := e.health - damage
      time_since_hit := 0
      brightness_update_time := 1 }

/-- `Enemy::should_delete`: `health == 0`. -/
def Enemy.should_delete (e : Enemy) : Bool := e.health == 0

/-- Enemy pool: `HopSlotMap<EnemyKey, Enemy>` as an association list in slot
iteration order, keys as `ℕ`. -/
abbrev EnemyPool := List (ℕ × Enemy)

/-- `HopSlotMap::get`. -/
def poolGet (pool : EnemyPool) (k : ℕ) : Option Enemy :=
  match pool with
  | [] => none
  | (k', e) :: rest => if k' = k then some e else poolGet rest k

/-!  `projectile.rs`  -/

/-- Embeds `projectile::ProjectileProperties`. -/
structure ProjectileProperties where
  size : Vec2
  damage : ℕ
  piercing : Bool
  speed : ℚ
  particle_distance : ℚ
  hit_particle_radius : ℕ
  hit_particle_distance : ℚ
deriving DecidableEq, Repr

/-- `ProjectileProperties::distance_to_front`. -/
def ProjectileProperties.distance_to_front (p : ProjectileProperties) : ℚ :=
  p.size.x / 2

/-- `ProjectileProperties::distance_to_back`. -/
def ProjectileProperties.distance_to_back (p : ProjectileProperties) : ℚ :=
  p.size.x / 2

/-- Embeds `projectile::Projectile`. -/
structure Projectile where
  object : Object
  direction : Rot
  properties : ProjectileProperties
  enemies_colliding : List ℕ
  enemies_intersecting : List ℕ
  enemies_hit : List ℕ
  time_since_collision : ℚ
  time_since_exit : ℚ
  distance_since_particle : ℚ
deriving DecidableEq, Repr

/-- `Projectile::COLLISION_SPEED_MULTIPLIER = 0.25`. -/
def collisionSpeedMultiplier : ℚ := 1 / 4

/-- `Projectile::should_delete`: `!(piercing || enemies_hit.is_empty())`. -/
def Projectile.should_delete (p : Projectile) : Bool :=
  !(p.properties.piercing || p.enemies_hit.isEmpty)

/-- Particle-pool effects of one `Projectile::tick`, abstracted: particle
contents (position, texture, jitter randomness) are irrelevant to every
claim, so insertions into the particle pool are counted, and each
`Enemy::explode` invocation is recorded by the struck enemy's key (an
explosion in turn inserts that enemy's fragment particles). -/
structure EventLog where
  particles : ℕ
  explosions : List ℕ
deriving DecidableEq, Repr

/-- The empty event log. -/
def EventLog.empty : EventLog := ⟨0, []⟩

/-- Concatenation of event logs of successive calls. -/
def EventLog.append (a b : EventLog) : EventLog :=
  ⟨a.particles + b.particles, a.explosions ++ b.explosions⟩

/-- Number of particles one `Projectile::add_hit_particles` call inserts:
the iterator runs over `1..=hit_particle_radius` and `flat_map`s each value
to two offsets. -/
def hitParticleCount (p : ProjectileProperties) : ℕ :=
  2 * p.hit_particle_radius

/-- Number of iterations of the trail-particle `while` loop in
`Projectile::tick`: starting from `d = distance_since_particle` (after the
`+= speed * dt` update) the loop subtracts `particle_distance` while
`d ≥ particle_distance`.  For `particle_distance > 0` that is
`⌊d / particle_distance⌋` clamped at `0`; for `particle_distance ≤ 0` the
Rust loop would not terminate — every `ProjectileKind` has
`particle_distance > 0` and no claim exercises that branch. -/
def trailSteps (d pd : ℚ) : ℕ :=
  if 0 < pd then (⌊d / pd⌋).toNat else 0

/-- The speed multiplier chosen at the top of `Projectile::tick`. -/
def Projectile.speedMultiplier (p : Projectile) : ℚ :=
  if p.enemies_colliding.isEmpty then 1 else collisionSpeedMultiplier

/-- Motion + trail-particle part of `Projectile::tick` (everything between
the early return and the `// Collisions` comment), plus the
`time_since_collision += dt` line that follows: sets `linear_velocity` from
the current speed, integrates the object by `dt` in a single step, and
advances `distance_since_particle`, emitting one trail particle per loop
iteration. -/
def Projectile.movePhase (rotAngle : ℚ → Rot) (p : Projectile) (dt : ℚ) :
    Projectile × ℕ :=
  let speed := p.properties.speed * p.speedMultiplier
  let obj :=
    { p.object with
        transform := { p.object.transform with
          linear_velocity := p.direction.apply ⟨speed, 0⟩ } }
  let obj := obj.tick rotAngle dt
  let d := p.distance_since_particle + speed * dt
  let n := trailSteps d p.properties.particle_distance
  ({ p with
      object := obj
      distance_since_particle := d - n * p.properties.particle_distance
      time_since_collision := p.time_since_collision + dt }, n)

/-- One step of the `for (key, enemy) in &mut *enemies` damage loop in
`Projectile::tick`: the guard skips enemies already in `enemies_intersecting`
or `enemies_colliding` (note: not `enemies_hit`) and otherwise requires exact
overlap; a struck enemy that dies is exploded (and left in the pool), a
surviving one is pushed onto `enemies_colliding` and `enemies_intersecting`;
either way hit particles are added, the key is pushed onto `enemies_hit` and
`time_since_collision` is reset. -/
def Projectile.hitStep (p : Projectile) (k : ℕ) (e : Enemy) :
    Projectile × Enemy × EventLog :=
  if !(p.enemies_intersecting.contains k || p.enemies_colliding.contains k)
      && p.object.is_colliding e.object then
    let e' := e.hit p.properties.damage
    if e'.should_delete then
      ({ p with
          enemies_hit := p.enemies_hit ++ [k]
          time_since_collision := 0 },
        e', ⟨hitParticleCount p.properties, [k]⟩)
    else
      ({ p with
          enemies_colliding := p.enemies_colliding ++ [k]
          enemies_intersecting := p.enemies_intersecting ++ [k]
          enemies_hit := p.enemies_hit ++ [k]
          time_since_collision := 0 },
        e', ⟨hitParticleCount p.properties, []⟩)
  else
    (p, e, EventLog.empty)

/-- The damage loop folded over the enemy pool in iteration order, rebuilding
the pool with the in-place enemy mutations. -/
def Projectile.hitLoop (p : Projectile) (pool : EnemyPool) :
    Projectile × EnemyPool × EventLog :=
  match pool with
  | [] => (p, [], EventLog.empty)
  | (k, e) :: rest =>
    let s := p.hitStep k e
    let r := s.1.hitLoop rest
    (r.1, (k, s.2.1) :: r.2.1, s.2.2.append r.2.2)

/-- Predicate of the `enemies_colliding.retain` call: the enemy must still be
in the pool, alive, and overlap the widened hitbox (the exact offset shifted
backward by `distance_to_front + distance_to_back`). -/
def Projectile.collidingRetain (p : Projectile) (pool : EnemyPool) (k : ℕ) :
    Bool :=
  match poolGet pool k with
  | none => false
  | some e =>
      !e.should_delete &&
        p.object.shape.is_colliding e.object.shape
          ((Iso.ofTranslation
              ⟨-(p.properties.distance_to_front +
                  p.properties.distance_to_back), 0⟩).comp
            (p.object.offset_to e.object))

/-- Predicate of the `enemies_intersecting.retain` call: pool membership,
liveness, and exact overlap. -/
def Projectile.intersectingRetain (p : Projectile) (pool : EnemyPool) (k : ℕ) :
    Bool :=
  match poolGet pool k with
  | none => false
  | some e => !e.should_delete && p.object.is_colliding e.object

/-- `Projectile::tick`. -/
def Projectile.tick (rotAngle : ℚ → Rot) (p : Projectile) (pool : EnemyPool)
    (dt : ℚ) : Projectile × EnemyPool × EventLog :=
  if p.should_delete then (p, pool, EventLog.empty)
  else
    let m := p.movePhase rotAngle dt
    let r := m.1.hitLoop pool
    let p₂ := r.1
    let pool₂ := r.2.1
    let p₃ := { p₂ with
      enemies_colliding :=
        p₂.enemies_colliding.filter (p₂.collidingRetain pool₂) }
    let p₄ := { p₃ with
      enemies_intersecting :=
        p₃.enemies_intersecting.filter (p₃.intersectingRetain pool₂) }
    let p₅ := { p₄ with
      time_since_exit :=
        if p₄.enemies_colliding.isEmpty then p₄.time_since_exit + dt
        else 0 }
    (p₅, pool₂, ⟨r.2.2.particles + m.2, r.2.2.explosions⟩)

/-!  `game.rs` -/

/-- The projectile phase of `Game::tick`: `projectiles.retain(|_, p| {
p.tick(&mut enemies, &mut particles, dt); !p.should_delete() &&
camera_bounds.is_colliding(&p.shape, p.position) })` — every projectile is
ticked in pool order against the shared enemy pool, then kept only if it is
not spent and still inside the camera bounds.  Dead enemies are *not*
removed here; `Game::tick` prunes the enemy pool only after this loop
(`game.rs:53`). -/
def tickProjectiles (rotAngle : ℚ → Rot) (cameraBounds : Shape)
    (ps : List Projectile) (pool : EnemyPool) (dt : ℚ) :
    List Projectile × EnemyPool × EventLog :=
  match ps with
  | [] => ([], pool, EventLog.empty)
  | p :: rest =>
    let t := p.tick rotAngle pool dt
    let keep := !t.1.should_delete &&
      cameraBounds.is_colliding t.1.object.shape t.1.object.transform.position
    let r := tickProjectiles rotAngle cameraBounds rest t.2.1 dt
    ((if keep then [t.1] else []) ++ r.1, r.2.1, t.2.2.append r.2.2)

/-!  `utils.rs: BoundingBox` and `enemy.rs: Enemy::explode`
(the ShatterDecomposer).

Pixel coordinates are `ℕ` (`usize`); grids are total functions
`ℕ → ℕ → Option α` written only at in-range coordinates (the Rust
`DMatrix` indexing panics out of range; the embedding returns `none` from
the surrounding computation in exactly those situations).  The
process-wide `macroquad::rand` source is an explicit stream
`rng : ℕ → ℕ` consumed at an advancing cursor, one value per
`gen_range` call. -/

/-- `utils.rs: BoundingBox` (inclusive integer corners).  Fields are the
two corners' coordinates. -/
structure BBox where
  minx : ℕ
  miny : ℕ
  maxx : ℕ
  maxy : ℕ
deriving DecidableEq, Repr

/-- `BoundingBox::intersects`. -/
def BBox.intersects (a b : BBox) : Bool :=
  a.minx ≤ b.maxx ∧ a.miny ≤ b.maxy ∧ b.minx ≤ a.maxx ∧ b.miny ≤ a.maxy

/-- Membership of a pixel in a bounding box (the `min.x..max.x + 1` /
`min.y..max.y + 1` loop ranges of the source). -/
def BBox.inBox (b : BBox) (x y : ℕ) : Bool :=
  b.minx ≤ x ∧ x ≤ b.maxx ∧ b.miny ≤ y ∧ y ≤ b.maxy

/-- Modelled from the spec: `BoundingBox::expand_to_fit` is called at
`enemy.rs:334` but its definition is not among the source files under
`src/`; per §4.4 step 4 ("Compute each group's tight pixel bounding box")
it grows the box minimally so that it contains the given pixel. -/
def BBox.expandToFit (b : BBox) (x y : ℕ) : BBox :=
  ⟨min b.minx x, min b.miny y, max b.maxx x, max b.maxy y⟩

/-- A pixel grid (`nalgebra::DMatrix` with `size.x` rows and `size.y`
columns, entry `(x, y)` at row `x`, column `y`). -/
def Grid (α : Type) : Type := ℕ → ℕ → Option α

/-- Write one grid cell. -/
def Grid.set {α : Type} (g : Grid α) (x y : ℕ) (v : α) : Grid α :=
  fun a b => if a = x ∧ b = y then some v else g a b

/-- The all-`none` grid (`DMatrix::from_element(_, _, None)`). -/
def Grid.empty {α : Type} : Grid α := fun _ _ => none

/-- The sprite's per-pixel opacity data: width, height, and the alpha byte
of each pixel (`image.get_image_data()[x + y*W][3]`). -/
structure Mask where
  W : ℕ
  H : ℕ
  alpha : ℕ → ℕ → ℕ

/-- A pixel counts as present when its alpha byte is positive.  The source
uses `opacity > 0` on the `u8` byte in the counting/seek loops and
`get_pixel(x, y).a > f32::EPSILON` on the normalized `f32` alpha in the
stamping loop; the two agree (a positive byte normalizes to at least
`1/255 > f32::EPSILON`). -/
def Mask.solid (m : Mask) (x y : ℕ) : Bool := m.alpha x y != 0

/-- Number of pixels that are solid and still ungrouped; `num_valid_pixels`
equals this quantity throughout `Enemy::explode` (initially the plain count
of solid pixels, since no pixel is grouped yet). -/
def ungroupedCount (m : Mask) (g : Grid ℕ) : ℕ :=
  (((Finset.range m.W) ×ˢ (Finset.range m.H)).filter
    (fun c => m.solid c.1 c.2 = true ∧ g c.1 c.2 = none)).card

/-- `macroquad::rand::gen_range(low, high)` on integers: a draw from
`[low, high)` (degenerate when `high ≤ low`), with the raw stream value
reduced modulo the width. -/
def genRange (low high v : ℕ) : ℕ :=
  if low < high then low + v % (high - low) else low

/-- The seed-seeking scan of `Enemy::explode` (the
`iter().zip(..).take_while(..).count()` expression): walk the linear pixel
indices, decrementing `count` at each ungrouped solid pixel, and return
the linear index of the `k`-th one (`take_while` stops once `count`
reaches `0`, so `count()` is exactly that pixel's linear index). -/
def kthUngrouped (m : Mask) (g : Grid ℕ) : List ℕ → ℕ → Option ℕ
  | [], _ => none
  | i :: rest, k =>
      if g (i % m.W) (i / m.W) = none ∧ m.solid (i % m.W) (i / m.W) = true then
        if k ≤ 1 then some i else kthUngrouped m g rest (k - 1)
      else kthUngrouped m g rest k

/-- The pixels of a bounding box in stamping order (`x` outer, `y` inner). -/
def boxCells (b : BBox) : List (ℕ × ℕ) :=
  (List.range' b.minx (b.maxx + 1 - b.minx)).flatMap
    (fun x => (List.range' b.miny (b.maxy + 1 - b.miny)).map (fun y => (x, y)))

/-- The rectangle clamping of one stamp in `Enemy::explode`
(`enemy.rs:214-236`): pull the random offset back so the box starts in
range, then the second clamp (which, as written in the source, sets the
offset to the full rectangle size, shifting the box entirely to the left
of / above the seed). -/
def clampBox (m : Mask) (px py w h ox oy : ℕ) : BBox :=
  let ox := if ox > px then px else ox
  let oy := if oy > py then py else oy
  let ox := if px - ox + w > m.W then w else ox
  let oy := if py - oy + h > m.H then h else oy
  ⟨px - ox, py - oy, px - ox + w - 1, py - oy + h - 1⟩

/-- The marking double loop of one stamp (`enemy.rs:238-250`): mark every
still-ungrouped solid pixel with `gid`, decrementing `num_valid_pixels`
per mark. -/
def stampCells (m : Mask) (gid : ℕ) (cells : List (ℕ × ℕ)) (g : Grid ℕ)
    (nv : ℕ) : Grid ℕ × ℕ :=
  cells.foldl
    (fun s c =>
      if s.1 c.1 c.2 = none ∧ m.solid c.1 c.2 = true then
        (s.1.set c.1 c.2 gid, s.2 - 1)
      else s)
    (g, nv)

/-- One random-rectangle stamp of `Enemy::explode`: clamp the randomly
positioned rectangle per the source, then mark its pixels.  Returns `none`
when the clamped box escapes the grid — there the Rust `group_ids[(x, y)]`
indexing panics (after the second clamp the box can underflow/overflow for
sprites narrower than the rectangle; real sprites are larger and no claim
exercises it). -/
def stampOnce (m : Mask) (g : Grid ℕ) (nv : ℕ) (gid : ℕ)
    (px py w h ox oy : ℕ) : Option (Grid ℕ × ℕ) :=
  if (clampBox m px py w h ox oy).maxx < m.W ∧
      (clampBox m px py w h ox oy).maxy < m.H then
    some (stampCells m gid (boxCells (clampBox m px py w h ox oy)) g nv)
  else none

/-- The `for _ in 0..gen_range(1, 3)` stamping loop: `reps` stamps, each
drawing four stream values (width, height, x-offset, y-offset). -/
def stampReps (m : Mask) (rng : ℕ → ℕ) (gid px py : ℕ) :
    ℕ → Grid ℕ → ℕ → ℕ → Option (Grid ℕ × ℕ × ℕ)
  | 0, g, nv, cursor => some (g, nv, cursor)
  | reps + 1, g, nv, cursor =>
      match stampOnce m g nv gid px py (genRange 4 8 (rng cursor))
          (genRange 4 8 (rng (cursor + 1)))
          (genRange 0 (genRange 4 8 (rng cursor)) (rng (cursor + 2)))
          (genRange 0 (genRange 4 8 (rng (cursor + 1))) (rng (cursor + 3))) with
      | none => none
      | some out => stampReps m rng gid px py reps out.1 out.2 (cursor + 4)

/-- The grouping `while num_valid_pixels > 0` loop of `Enemy::explode`
(phase 1 of the ShatterDecomposer): pick the `gen_range(1, nv)`-th
ungrouped solid pixel as a seed, stamp `gen_range(1, 3)` random rectangles
around it, bump the group id, repeat.  Structured with fuel; `none` models
both nontermination and the panicking paths. -/
def phase1 (m : Mask) (rng : ℕ → ℕ) :
    ℕ → Grid ℕ → ℕ → ℕ → ℕ → Option (Grid ℕ)
  | 0, _, _, _, _ => none
  | fuel + 1, g, nv, gid, cursor =>
      if nv = 0 then some g
      else
        match kthUngrouped m g (List.range (m.W * m.H))
            (genRange 1 nv (rng cursor)) with
        | none => none
        | some idx =>
            match stampReps m rng gid (idx % m.W) (idx / m.W)
                (genRange 1 3 (rng (cursor + 1))) g nv (cursor + 2) with
            | none => none
            | some out => phase1 m rng fuel out.1 out.2.1 (gid + 1) out.2.2

/-- Entry point of phase 1: empty grid, `num_valid_pixels` = the solid
pixel count, first group id `1` (`NonZeroUsize::new(1)`). -/
def phase1Run (m : Mask) (rng : ℕ → ℕ) (fuel : ℕ) : Option (Grid ℕ) :=
  phase1 m rng fuel Grid.empty (ungroupedCount m Grid.empty) 1 0

/-- The per-group flood fill of `Enemy::explode`'s bounding-box pass
(`enemy.rs:318-343`): pop a coordinate (the `Vec` stack is modelled with
its top at the head), skip it unless it is in bounds, unkeyed, and carries
the seed's group id; otherwise key it, grow the bounding box to fit it, and
push its four neighbours (pushed in source order `(x-1,y)`, `(x,y-1)`,
`(x+1,y)`, `(x,y+1)`, so `(x,y+1)` is popped first; coordinates are `ℤ`
because `x.wrapping_sub(1)` is deliberately out of range at `0`).  Fuel
models the unbounded `while let` loop. -/
def fillLoop (m : Mask) (gids : Grid ℕ) (gid : ℕ) (newKey : ℕ) :
    ℕ → Grid ℕ → List (ℤ × ℤ) → BBox → Option (Grid ℕ × BBox)
  | 0, keys, stack, bb => if stack.isEmpty then some (keys, bb) else none
  | _ + 1, keys, [], bb => some (keys, bb)
  | fuel + 1, keys, (ix, iy) :: stack, bb =>
      if 0 ≤ ix ∧ ix < (m.W : ℤ) ∧ 0 ≤ iy ∧ iy < (m.H : ℤ) then
        if keys ix.toNat iy.toNat = none then
          if gids ix.toNat iy.toNat = some gid then
            fillLoop m gids gid newKey fuel
              (keys.set ix.toNat iy.toNat newKey)
              ((ix, iy + 1) :: (ix + 1, iy) :: (ix, iy - 1) :: (ix - 1, iy)
                :: stack)
              (bb.expandToFit ix.toNat iy.toNat)
          else fillLoop m gids gid newKey fuel keys stack bb
        else fillLoop m gids gid newKey fuel keys stack bb
      else fillLoop m gids gid newKey fuel keys stack bb

/-- The outer double loop of the bounding-box pass (`x` outer, `y` inner):
for each yet-unkeyed pixel carrying a group id, run the flood fill with a
fresh slotmap key (keys modelled as a `ℕ` counter in insertion order) and
record the resulting tight bounding box.  The parallel `group_sizes` pass
(`enemy.rs:256-299`) is omitted: the size stored next to each box is never
read again (`(bounding_box, _)` everywhere downstream). -/
def phase3Go (m : Mask) (gids : Grid ℕ) (fillFuel : ℕ) :
    List (ℕ × ℕ) → Grid ℕ → ℕ → List (ℕ × BBox) →
    Option (Grid ℕ × List (ℕ × BBox))
  | [], keys, _, acc => some (keys, acc)
  | (x, y) :: rest, keys, nk, acc =>
      if keys x y ≠ none then phase3Go m gids fillFuel rest keys nk acc
      else
        match gids x y with
        | none => phase3Go m gids fillFuel rest keys nk acc
        | some gid =>
            match fillLoop m gids gid nk fillFuel keys [((x : ℤ), (y : ℤ))]
                ⟨x, y, x, y⟩ with
            | none => none
            | some (keys', bb) =>
                phase3Go m gids fillFuel rest keys' (nk + 1) (acc ++ [(nk, bb)])

/-- The pixel coordinates in outer-loop order (`for x in 0..size.x { for y
in 0..size.y ... }`). -/
def gridCells (m : Mask) : List (ℕ × ℕ) :=
  (List.range m.W).flatMap (fun x => (List.range m.H).map (fun y => (x, y)))

/-- Phase 3 entry point: empty key grid, first slotmap key `0`, no boxes. -/
def phase3 (m : Mask) (gids : Grid ℕ) (fillFuel : ℕ) :
    Option (Grid ℕ × List (ℕ × BBox)) :=
  phase3Go m gids fillFuel (gridCells m) Grid.empty 0 []

/-- One step of the atlas-packing `retain` (`enemy.rs:355-365`): an entry
whose box intersects a box already in the atlas is **kept for later
atlases** (`true` branch), an entry that intersects none is **absorbed**
into the atlas (`false` branch, `texture_bounding_boxes.push`). -/
def absorbStep (s : List (ℕ × BBox) × List (ℕ × BBox)) (e : ℕ × BBox) :
    List (ℕ × BBox) × List (ℕ × BBox) :=
  if s.1.any (fun o => e.2.intersects o.2) then (s.1, s.2 ++ [e])
  else (s.1 ++ [e], s.2)

/-- The atlas-packing `while let Some(key) = bounding_boxes.keys().next()`
loop of `Enemy::explode`: remove the first remaining entry, seed a new
atlas with it, run the `retain` pass over the rest, and recurse on what the
`retain` kept.  Fuel-structured; each round consumes at least the seed, so
fuel `= l.length` always suffices (`packAtlases` below). -/
def packFuel : ℕ → List (ℕ × BBox) → List (List (ℕ × BBox))
  | _, [] => []
  | 0, _ :: _ => []
  | fuel + 1, e :: rest =>
      let s := rest.foldl absorbStep ([e], [])
      s.1 :: packFuel fuel s.2

/-- Atlas packing with sufficient fuel. -/
def packAtlases (l : List (ℕ × BBox)) : List (List (ℕ × BBox)) :=
  packFuel l.length l

/-- Whether the pixel-copy loop of one atlas (`enemy.rs:369-380`) writes
pixel `(x, y)` into this atlas's image: some member entry's box contains
the pixel and the pixel's group key is that entry's key
(`group_keys[(x, y)] == Some(group)`). -/
def copiedIn (keys : Grid ℕ) (atlas : List (ℕ × BBox)) (x y : ℕ) : Bool :=
  atlas.any (fun e => e.2.inBox x y && keys x y == some e.1)

/-- The full pixel pipeline of `Enemy::explode` up to atlas packing: random
grouping (phase 1), per-group flood-fill keying with tight bounding boxes,
and the key/box list from which `packAtlases` builds the atlases and
`copiedIn` describes the per-atlas pixel copies.  The fragment-particle
spawning that follows (velocities, lifetimes) touches no pixel data. -/
def shatterPipeline (m : Mask) (rng : ℕ → ℕ) (fuel1 fillFuel : ℕ) :
    Option (Grid ℕ × List (ℕ × BBox)) :=
  match phase1Run m rng fuel1 with
  | none => none
  | some gids => phase3 m gids fillFuel

/-!  Concrete scenario material shared by witnesses and counterexamples.  -/

/-- Stand-in for `UnitComplex::new` in scenarios: every scenario keeps all
angular velocities at `0`, so this function is only ever evaluated at angle
`0`, where it agrees with the real cosine/sine pair `(1, 0)`. -/
def rotZero : ℚ → Rot := fun _ => Rot.one

/-- Replace every pooled enemy's position (the pool evolving between frames
— enemies move themselves in `Enemy::tick`). -/
def relocate (pool : EnemyPool) (v : Vec2) : EnemyPool :=
  pool.map (fun ke =>
    (ke.1, { ke.2 with object := { ke.2.object with transform :=
      { ke.2.object.transform with position :=
        { ke.2.object.transform.position with trans := v } } } }))

/-- A "Classic"-kind projectile (piercing, damage 4, `0.8 × 0.2` rectangle)
at the origin with cleared contact sets. -/
def classicProj : Projectile :=
  { object := { shape := .rectangle ⟨2/5, 1/10⟩,
                transform := { position := ⟨Rot.one, ⟨0, 0⟩⟩,
                               linear_velocity := ⟨0, 0⟩,
                               angular_velocity := 0 } },
    direction := Rot.one,
    properties := { size := ⟨4/5, 1/5⟩, damage := 4, piercing := true,
                    speed := 15, particle_distance := 1,
                    hit_particle_radius := 2, hit_particle_distance := 4/5 },
    enemies_colliding := [], enemies_intersecting := [], enemies_hit := [],
    time_since_collision := 1000, time_since_exit := 1000,
    distance_since_particle := 0 }

/-- A "Rapid"-kind projectile (non-piercing, damage 2, `0.2 × 0.2`
rectangle) at the origin with cleared contact sets. -/
def rapidProj : Projectile :=
  { object := { shape := .rectangle ⟨1/10, 1/10⟩,
                transform := { position := ⟨Rot.one, ⟨0, 0⟩⟩,
                               linear_velocity := ⟨0, 0⟩,
                               angular_velocity := 0 } },
    direction := Rot.one,
    properties := { size := ⟨1/5, 1/5⟩, damage := 2, piercing := false,
                    speed := 30, particle_distance := 3,
                    hit_particle_radius := 1, hit_particle_distance := 4/5 },
    enemies_colliding := [], enemies_intersecting := [], enemies_hit := [],
    time_since_collision := 1000, time_since_exit := 1000,
    distance_since_particle := 0 }

/-- A circle-shaped enemy of radius `1/2` at the given position with the
given health (a "Red Circle" with its health possibly already reduced). -/
def circleEnemy (v : Vec2) (health : ℕ) : Enemy :=
  { object := { shape := .circle (1/2),
                transform := { position := ⟨Rot.one, v⟩,
                               linear_velocity := ⟨0, 0⟩,
                               angular_velocity := 0 } },
    health := health, time_since_hit := 1000, brightness_update_time := 0 }

/-!  Algebraic helper lemmas about the geometry embedding.  -/

theorem Vec2.neg_def (v : Vec2) : -v = ⟨-v.x, -v.y⟩ := rfl

theorem Vec2.add_def (a b : Vec2) : a + b = ⟨a.x + b.x, a.y + b.y⟩ := rfl

theorem Vec2.add_zero_right (v : Vec2) : v + ⟨0, 0⟩ = v := by
  rw [Vec2.add_def]; cases v; simp

theorem Rot.one_apply (v : Vec2) : Rot.one.apply v = v := by
  cases v; simp [Rot.apply, Rot.one]

theorem Rot.conj_one_apply (v : Vec2) : Rot.one.conj.apply v = v := by
  cases v; simp [Rot.apply, Rot.conj, Rot.one]

theorem bbox_rot_one (h : Vec2) :
    bounding_box_of_rectangle h Rot.one = ⟨|h.x|, |h.y|⟩ := by
  simp [bounding_box_of_rectangle, Rot.one_apply, Vec2.absV, abs_neg]

theorem bbox_rot_conj_one (h : Vec2) :
    bounding_box_of_rectangle h Rot.one.conj = ⟨|h.x|, |h.y|⟩ := by
  simp [bounding_box_of_rectangle, Rot.conj_one_apply, Vec2.absV, abs_neg]

/-!  Claim theorems.  -/

/-- Claim C9: whenever `should_delete()` already holds at entry (the
projectile is non-piercing with a non-empty `hit` set), `Projectile::tick`
returns immediately and leaves the projectile, the enemy pool and the
particle pool untouched, for any `dt`. -/
theorem c9_early_return_noop (rotAngle : ℚ → Rot) (p : Projectile)
    (pool : EnemyPool) (dt : ℚ) (h : p.should_delete = true) :
    Projectile.tick rotAngle p pool dt = (p, pool, EventLog.empty) := by
  simp [Projectile.tick, h]

/-- Witness for C9: a concrete non-piercing projectile with `hit = [9]`. -/
theorem c9_early_return_noop_witness :
    ({ rapidProj with enemies_hit := [9] } : Projectile).should_delete = true ∧
      Projectile.tick rotZero { rapidProj with enemies_hit := [9] }
        [(2, circleEnemy ⟨3/10, 0⟩ 4)] (1/2) =
        ({ rapidProj with enemies_hit := [9] },
          [(2, circleEnemy ⟨3/10, 0⟩ 4)], EventLog.empty) :=
  ⟨by decide,
    c9_early_return_noop rotZero { rapidProj with enemies_hit := [9] }
      [(2, circleEnemy ⟨3/10, 0⟩ 4)] (1/2) (by decide)⟩

/-- Counterexample to claim C5 as stated: two axis-aligned `0.6`-half-size
rectangles whose edges exactly abut (offset `1.2 = 0.6 + 0.6`) — boundary
contact with zero penetration — are reported as **colliding** by
`Shape::is_colliding`, because every rectangle test uses non-strict `≤`
comparisons. -/
theorem c5_counterexample_touching_collides :
    Shape.is_colliding (.rectangle ⟨3/5, 3/5⟩) (.rectangle ⟨3/5, 3/5⟩)
      ⟨Rot.one, ⟨6/5, 0⟩⟩ = true := by decide

/-- Claim C5, amended: the circle–point and circle–circle tests use strict
inequality (exact tangency is *not* colliding), but the rectangle–point,
rectangle–circle and rectangle–rectangle tests use non-strict `≤`, so exact
boundary contact there *is* colliding: a point exactly on a rectangle's
edge, a circle exactly abutting a rectangle's side, and axis-aligned
rectangles whose edges exactly abut all return `true`. -/
theorem c5_boundary_behaviour :
    (∀ r : ℚ, ∀ t : Vec2, t.magSq = r ^ 2 → circle_point r t = false) ∧
    (∀ ra rb : ℚ, ∀ t : Vec2, t.magSq = (ra + rb) ^ 2 →
      circle_circle ra rb t = false) ∧
    (∀ h : Vec2, ∀ t : Vec2, |t.x| = h.x → |t.y| ≤ h.y →
      rectangle_point h t = true) ∧
    (∀ h : Vec2, ∀ r : ℚ, ∀ t : Vec2, |t.y| ≤ h.y → |t.x| = h.x + r →
      rectangle_circle h r t = true) ∧
    (∀ ha hb : Vec2, ∀ d : ℚ, 0 ≤ ha.x → 0 ≤ ha.y → 0 ≤ hb.x → 0 ≤ hb.y →
      |d| = ha.x + hb.x →
      Shape.is_colliding (.rectangle ha) (.rectangle hb)
        ⟨Rot.one, ⟨d, 0⟩⟩ = true) := by
  refine ⟨?_, ?_, ?_, ?_, ?_⟩
  · intro r t h
    simp only [circle_point, h, decide_eq_false_iff_not, not_lt, le_refl]
  · intro ra rb t h
    simp only [circle_circle, h, decide_eq_false_iff_not, not_lt, le_refl]
  · intro h t hx hy
    simp [rectangle_point, hx, hy]
  · intro h r t hy hx
    simp [rectangle_circle, Vec2.absV, abs_abs, hy, hx]
  · intro ha hb d hax hay hbx hby hd
    simp only [Shape.is_colliding, rectangle_rectangle,
      rectangle_rectangle_one_sided, Iso.inv, bbox_rot_one, bbox_rot_conj_one,
      Rot.conj_one_apply, Vec2.absV, Bool.and_eq_true, decide_eq_true_eq,
      Vec2.neg_def, abs_neg, abs_zero, hd, abs_of_nonneg hax,
      abs_of_nonneg hay, abs_of_nonneg hbx, abs_of_nonneg hby]
    refine ⟨⟨le_refl _, by positivity⟩, by linarith, by positivity⟩

/-- Witness for the amended C5: each boundary configuration instantiated at
concrete numbers (tangent circles at distance `2`; a point on the edge of a
unit square; a circle abutting a square; the claim's own `0.6/0.6`
rectangles at offset `1.2`). -/
theorem c5_boundary_behaviour_witness :
    (circle_point 1 ⟨1, 0⟩ = false) ∧
    (circle_circle 1 1 ⟨2, 0⟩ = false) ∧
    (rectangle_point ⟨1, 1⟩ ⟨1, 0⟩ = true) ∧
    (rectangle_circle ⟨1, 1⟩ (1/2) ⟨3/2, 0⟩ = true) ∧
    (Shape.is_colliding (.rectangle ⟨3/5, 3/5⟩) (.rectangle ⟨3/5, 3/5⟩)
      ⟨Rot.one, ⟨-6/5, 0⟩⟩ = true) :=
  ⟨c5_boundary_behaviour.1 1 ⟨1, 0⟩ (by norm_num [Vec2.magSq]),
    c5_boundary_behaviour.2.1 1 1 ⟨2, 0⟩ (by norm_num [Vec2.magSq]),
    c5_boundary_behaviour.2.2.1 ⟨1, 1⟩ ⟨1, 0⟩ (by norm_num) (by simp),
    c5_boundary_behaviour.2.2.2.1 ⟨1, 1⟩ (1/2) ⟨3/2, 0⟩ (by norm_num)
      (by norm_num),
    c5_boundary_behaviour.2.2.2.2 ⟨3/5, 3/5⟩ ⟨3/5, 3/5⟩ (-6/5) (by norm_num)
      (by norm_num) (by norm_num) (by norm_num) (by norm_num)⟩

/-!  C2: atlas packing.  -/

/-- `BoundingBox::intersects` is symmetric. -/
theorem BBox.intersects_symm (a b : BBox) :
    a.intersects b = b.intersects a := by
  simp only [BBox.intersects, decide_eq_decide]
  tauto

/-- Along the packing `retain` pass, an atlas whose members are pairwise
non-intersecting stays pairwise non-intersecting: a box is only absorbed
when it intersects no current member. -/
theorem absorb_foldl_pairwise (rest : List (ℕ × BBox))
    (A K : List (ℕ × BBox))
    (hA : A.Pairwise (fun a b => a.2.intersects b.2 = false)) :
    (rest.foldl absorbStep (A, K)).1.Pairwise
      (fun a b => a.2.intersects b.2 = false) := by
  induction rest generalizing A K with
  | nil => exact hA
  | cons e rest ih =>
      simp only [List.foldl_cons, absorbStep]
      by_cases h : A.any (fun o => e.2.intersects o.2) = true
      · simp only [h, if_true]
        exact ih A (K ++ [e]) hA
      · simp only [h, if_false]
        refine ih (A ++ [e]) K ?_
        rw [List.pairwise_append]
        refine ⟨hA, List.pairwise_singleton _ _, ?_⟩
        intro a ha b hb
        simp only [List.mem_singleton] at hb
        subst hb
        rw [List.any_eq_true] at h
        push_neg at h
        have := h a ha
        rw [BBox.intersects_symm]
        simpa using this

/-- Every atlas emitted by the packing loop has pairwise non-intersecting
member boxes, for any fuel. -/
theorem packFuel_pairwise (fuel : ℕ) (l : List (ℕ × BBox)) :
    ∀ A ∈ packFuel fuel l,
      A.Pairwise (fun a b => a.2.intersects b.2 = false) := by
  induction fuel generalizing l with
  | zero =>
      intro A hA
      cases l with
      | nil => simp [packFuel] at hA
      | cons e rest => simp [packFuel] at hA
  | succ fuel ih =>
      intro A hA
      cases l with
      | nil => simp [packFuel] at hA
      | cons e rest =>
          simp only [packFuel, List.mem_cons] at hA
          rcases hA with hA | hA
          · subst hA
            exact absorb_foldl_pairwise rest [e] []
              (List.pairwise_singleton _ _)
          · exact ih _ _ hA

/-- Counterexample to claim C2 as stated: two *intersecting* boxes.  The
packing `retain` keeps a candidate that intersects the atlas
(`enemy.rs:355-365`, the `true` branch) and absorbs one that does not, so
the two intersecting boxes land in *different* atlases — the exact opposite
of the claimed "transitively absorb every remaining box that intersects":
after packing, a box in the first atlas intersects a box in the second. -/
theorem c2_counterexample_cross_atlas_intersection :
    packAtlases [(0, ⟨0, 0, 3, 3⟩), (1, ⟨2, 2, 5, 5⟩)] =
      [[(0, ⟨0, 0, 3, 3⟩)], [(1, ⟨2, 2, 5, 5⟩)]] ∧
    BBox.intersects ⟨0, 0, 3, 3⟩ ⟨2, 2, 5, 5⟩ = true := by
  constructor <;> rfl

/-- Claim C2, amended: the packing loop in `Enemy::explode` opens a new
atlas with the first remaining bounding box and absorbs into it every
remaining box that does **not** intersect any box already in the atlas
(boxes that do intersect are kept for later atlases), so that after packing
no two bounding boxes *within the same atlas* intersect.  (Boxes in
different atlases may intersect; each atlas is one shared texture image, so
it is the members of a single atlas that must not overlap.) -/
theorem c2_within_atlas_disjoint (l : List (ℕ × BBox))
    (A : List (ℕ × BBox)) (hA : A ∈ packAtlases l) :
    A.Pairwise (fun a b => a.2.intersects b.2 = false) :=
  packFuel_pairwise l.length l A hA

/-- Witness for the amended C2: packing two disjoint boxes yields a single
atlas containing both, whose members pairwise do not intersect. -/
theorem c2_within_atlas_disjoint_witness :
    [(0, (⟨0, 0, 1, 1⟩ : BBox)), (1, ⟨3, 3, 4, 4⟩)] ∈
      packAtlases [(0, ⟨0, 0, 1, 1⟩), (1, ⟨3, 3, 4, 4⟩)] ∧
    List.Pairwise (fun a b => a.2.intersects b.2 = false)
      [(0, (⟨0, 0, 1, 1⟩ : BBox)), (1, ⟨3, 3, 4, 4⟩)] :=
  ⟨by decide,
    c2_within_atlas_disjoint [(0, ⟨0, 0, 1, 1⟩), (1, ⟨3, 3, 4, 4⟩)]
      [(0, ⟨0, 0, 1, 1⟩), (1, ⟨3, 3, 4, 4⟩)] (by decide)⟩

/-!  C6: symmetry of `Shape::is_colliding`.  -/

theorem Rot.conj_conj (a : Rot) : a.conj.conj = a := by
  cases a; simp [Rot.conj]

theorem Rot.apply_neg (a : Rot) (v : Vec2) : a.apply (-v) = -(a.apply v) := by
  cases v; simp [Rot.apply, Vec2.neg_def]; constructor <;> ring

theorem Vec2.neg_neg_self (v : Vec2) : -(-v) = v := by
  cases v; simp [Vec2.neg_def]

theorem Rot.apply_conj_apply (a : Rot) (h : a.IsUnit) (v : Vec2) :
    a.apply (a.conj.apply v) = v := by
  cases v with
  | mk vx vy =>
    simp only [Rot.apply, Rot.conj, Vec2.mk.injEq]
    rw [Rot.IsUnit] at h
    constructor
    · linear_combination vx * h
    · linear_combination vy * h

theorem Vec2.magSq_neg (v : Vec2) : (-v).magSq = v.magSq := by
  cases v; simp only [Vec2.magSq, Vec2.neg_def]; ring

theorem Rot.magSq_apply (a : Rot) (v : Vec2) :
    (a.apply v).magSq = (a.re ^ 2 + a.im ^ 2) * v.magSq := by
  simp only [Rot.apply, Vec2.magSq]; ring

/-- Under the `UnitComplex` unit-norm invariant, inverting an isometry twice
gives it back (exactly, over `ℚ`). -/
theorem Iso.inv_inv (o : Iso) (h : o.rot.IsUnit) : o.inv.inv = o := by
  cases o with
  | mk r t =>
    simp only [Iso.inv, Rot.conj_conj, Iso.mk.injEq, true_and]
    rw [Rot.apply_neg, Vec2.neg_neg_self, Rot.apply_conj_apply r h]

/-- The translation magnitude is preserved by isometry inversion (under the
unit-norm invariant). -/
theorem Iso.magSq_inv_trans (o : Iso) (h : o.rot.IsUnit) :
    o.inv.trans.magSq = o.trans.magSq := by
  cases o with
  | mk r t =>
    simp only [Iso.inv, Vec2.magSq_neg, Rot.magSq_apply, Rot.conj]
    rw [Rot.IsUnit] at h
    have : r.re ^ 2 + (-r.im) ^ 2 = 1 := by nlinarith [h]
    rw [this, one_mul]

/-- Claim C6: for all shape pairs and all rigid offsets (the `UnitComplex`
rotation component satisfying its unit-norm invariant),
`is_colliding(A, B, offset) == is_colliding(B, A, offset.inverse())`. -/
theorem c6_is_colliding_symm (a b : Shape) (o : Iso) (h : o.rot.IsUnit) :
    a.is_colliding b o = b.is_colliding a o.inv := by
  cases a <;> cases b <;> simp only [Shape.is_colliding] <;>
    first
    | rfl
    | rw [Iso.inv_inv o h]
    | (simp only [circle_point]; rw [Iso.magSq_inv_trans o h])
    | (simp only [circle_circle]; rw [Iso.magSq_inv_trans o h, add_comm])
    | (unfold rectangle_rectangle; rw [Iso.inv_inv o h, Bool.and_comm])

/-- Witness for C6: a rotated rectangle against a circle, with the exact
unit rotation `(3/5, 4/5)`. -/
theorem c6_is_colliding_symm_witness :
    Rot.IsUnit ⟨3/5, 4/5⟩ ∧
    Shape.is_colliding (.rectangle ⟨1, 2⟩) (.circle 1)
        ⟨⟨3/5, 4/5⟩, ⟨2, 1⟩⟩ =
      Shape.is_colliding (.circle 1) (.rectangle ⟨1, 2⟩)
        (Iso.inv ⟨⟨3/5, 4/5⟩, ⟨2, 1⟩⟩) :=
  ⟨by norm_num [Rot.IsUnit],
    c6_is_colliding_symm (.rectangle ⟨1, 2⟩) (.circle 1)
      ⟨⟨3/5, 4/5⟩, ⟨2, 1⟩⟩ (by norm_num [Rot.IsUnit])⟩

/-!  Structural lemmas about the phases of `Projectile::tick`.  -/

theorem Rot.one_mulR (a : Rot) : Rot.one.mulR a = a := by
  cases a; simp [Rot.mulR, Rot.one]

theorem Vec2.scale_zero (v : Vec2) : v.scale 0 = ⟨0, 0⟩ := by
  simp [Vec2.scale]

/-- The damage-loop step never moves or reshapes the projectile. -/
theorem Projectile.hitStep_object (p : Projectile) (k : ℕ) (e : Enemy) :
    (p.hitStep k e).1.object = p.object := by
  unfold Projectile.hitStep
  split
  · dsimp only
    split <;> rfl
  · rfl

/-- The damage-loop step never changes the projectile's properties. -/
theorem Projectile.hitStep_properties (p : Projectile) (k : ℕ) (e : Enemy) :
    (p.hitStep k e).1.properties = p.properties := by
  unfold Projectile.hitStep
  split
  · dsimp only
    split <;> rfl
  · rfl

/-- The damage loop never moves or reshapes the projectile. -/
theorem Projectile.hitLoop_object (p : Projectile) (pool : EnemyPool) :
    (p.hitLoop pool).1.object = p.object := by
  induction pool generalizing p with
  | nil => rfl
  | cons ke rest ih =>
      cases ke with
      | mk k e =>
          show ((p.hitStep k e).1.hitLoop rest).1.object = p.object
          rw [ih, Projectile.hitStep_object]

/-- The damage loop rebuilds the pool with the same keys in the same
order. -/
theorem Projectile.hitLoop_keys (p : Projectile) (pool : EnemyPool) :
    (p.hitLoop pool).2.1.map Prod.fst = pool.map Prod.fst := by
  induction pool generalizing p with
  | nil => rfl
  | cons ke rest ih =>
      cases ke with
      | mk k e =>
          show (((k, (p.hitStep k e).2.1) ::
              ((p.hitStep k e).1.hitLoop rest).2.1).map Prod.fst) = _
          simp [ih]

/-- Components of `Projectile::tick` when the early return is not taken:
the final pool. -/
theorem Projectile.tick_pool (rotAngle : ℚ → Rot) (p : Projectile)
    (pool : EnemyPool) (dt : ℚ) (h : p.should_delete = false) :
    (Projectile.tick rotAngle p pool dt).2.1 =
      ((p.movePhase rotAngle dt).1.hitLoop pool).2.1 := by
  simp [Projectile.tick, h]

/-- Components of `Projectile::tick` when the early return is not taken:
the explosion events all come from the damage loop. -/
theorem Projectile.tick_explosions (rotAngle : ℚ → Rot) (p : Projectile)
    (pool : EnemyPool) (dt : ℚ) (h : p.should_delete = false) :
    (Projectile.tick rotAngle p pool dt).2.2.explosions =
      ((p.movePhase rotAngle dt).1.hitLoop pool).2.2.explosions := by
  simp [Projectile.tick, h]

/-- Components of `Projectile::tick` when the early return is not taken:
the final `hit` set is the damage loop's (the retains do not touch it). -/
theorem Projectile.tick_hit (rotAngle : ℚ → Rot) (p : Projectile)
    (pool : EnemyPool) (dt : ℚ) (h : p.should_delete = false) :
    (Projectile.tick rotAngle p pool dt).1.enemies_hit =
      ((p.movePhase rotAngle dt).1.hitLoop pool).1.enemies_hit := by
  simp [Projectile.tick, h]

/-- Components of `Projectile::tick` when the early return is not taken:
the final object is the post-motion object. -/
theorem Projectile.tick_object (rotAngle : ℚ → Rot) (p : Projectile)
    (pool : EnemyPool) (dt : ℚ) (h : p.should_delete = false) :
    (Projectile.tick rotAngle p pool dt).1.object =
      (p.movePhase rotAngle dt).1.object := by
  simp [Projectile.tick, h, Projectile.hitLoop_object]

/-- The `intersecting` retain predicate ignores the `colliding` list, so
updating that list between the two retains does not change it. -/
theorem Projectile.intersectingRetain_colliding_update (p : Projectile)
    (l : List ℕ) (pool : EnemyPool) :
    ({ p with enemies_colliding := l } : Projectile).intersectingRetain pool =
      p.intersectingRetain pool := rfl

/-- Components of `Projectile::tick` when the early return is not taken:
the final `intersecting` set is exactly what the final `retain` kept. -/
theorem Projectile.tick_intersecting (rotAngle : ℚ → Rot) (p : Projectile)
    (pool : EnemyPool) (dt : ℚ) (h : p.should_delete = false) :
    (Projectile.tick rotAngle p pool dt).1.enemies_intersecting =
      ((p.movePhase rotAngle dt).1.hitLoop pool).1.enemies_intersecting.filter
        (((p.movePhase rotAngle dt).1.hitLoop pool).1.intersectingRetain
          ((p.movePhase rotAngle dt).1.hitLoop pool).2.1) := by
  simp [Projectile.tick, h, Projectile.intersectingRetain_colliding_update]

/-- The motion phase leaves the contact sets untouched. -/
theorem Projectile.movePhase_colliding (rotAngle : ℚ → Rot) (p : Projectile)
    (dt : ℚ) :
    (p.movePhase rotAngle dt).1.enemies_colliding = p.enemies_colliding := rfl

/-- The motion phase leaves the contact sets untouched. -/
theorem Projectile.movePhase_intersecting (rotAngle : ℚ → Rot) (p : Projectile)
    (dt : ℚ) :
    (p.movePhase rotAngle dt).1.enemies_intersecting =
      p.enemies_intersecting := rfl

/-- The motion phase leaves the `hit` set untouched. -/
theorem Projectile.movePhase_hit (rotAngle : ℚ → Rot) (p : Projectile)
    (dt : ℚ) :
    (p.movePhase rotAngle dt).1.enemies_hit = p.enemies_hit := rfl

/-- The motion phase performs exactly one integration step: the rotation is
composed with the angle-rotation of `angular_velocity * dt` and the
translation advances by the velocity vector (direction times current speed)
scaled by the full `dt`, in one step. -/
theorem Projectile.movePhase_position (rotAngle : ℚ → Rot) (p : Projectile)
    (dt : ℚ) :
    (p.movePhase rotAngle dt).1.object.transform.position =
      ⟨(rotAngle (p.object.transform.angular_velocity * dt)).mulR
          p.object.transform.position.rot,
        p.object.transform.position.trans +
          (p.direction.apply
            ⟨p.properties.speed * p.speedMultiplier, 0⟩).scale dt⟩ := rfl

/-!  C3: no subtick integration exists — a single full-`dt` step.  -/

/-- Claim C3, amended: `Projectile::tick` integrates motion in a **single**
step of the full `dt` — the position advances by `velocity · dt` at once,
after which one collision-detection pass runs against the final position.
There is no subtick subdivision anywhere: `ProjectileProperties` carries no
subtick count (`projectile.rs:88-99`), so fast projectiles can tunnel
through thin enemies (see the counterexample). -/
theorem c3_single_full_step (rotAngle : ℚ → Rot) (p : Projectile)
    (pool : EnemyPool) (dt : ℚ) (h : p.should_delete = false) :
    (Projectile.tick rotAngle p pool dt).1.object.transform.position =
      ⟨(rotAngle (p.object.transform.angular_velocity * dt)).mulR
          p.object.transform.position.rot,
        p.object.transform.position.trans +
          (p.direction.apply
            ⟨p.properties.speed * p.speedMultiplier, 0⟩).scale dt⟩ := by
  rw [Projectile.tick_object rotAngle p pool dt h,
    Projectile.movePhase_position]

/-- Witness for the amended C3 at a concrete input: a Classic projectile
(speed 15) ticked for `dt = 1` lands exactly at `x = 15`. -/
theorem c3_single_full_step_witness :
    classicProj.should_delete = false ∧
    (Projectile.tick rotZero classicProj [(3, circleEnemy ⟨15/2, 0⟩ 4)]
        1).1.object.transform.position =
      ⟨(rotZero (classicProj.object.transform.angular_velocity * 1)).mulR
          classicProj.object.transform.position.rot,
        classicProj.object.transform.position.trans +
          (classicProj.direction.apply
            ⟨classicProj.properties.speed * classicProj.speedMultiplier,
              0⟩).scale 1⟩ :=
  ⟨by decide,
    c3_single_full_step rotZero classicProj [(3, circleEnemy ⟨15/2, 0⟩ 4)] 1
      (by decide)⟩

/-- Counterexample to claim C3 as stated: with per-substep collision
detection a Classic projectile (speed 15) crossing a radius-`1/2` circle
enemy centred on the midpoint of its `dt = 1` path would strike it — the
hitboxes overlap at the midpoint, as the last conjunct shows.  The code
instead integrates the whole `dt` in one step to `x = 15` and only then
tests collision, so the enemy is untouched and nothing is hit: the
projectile tunnels straight through. -/
theorem c3_counterexample_tunnelling :
    (Projectile.tick rotZero classicProj [(3, circleEnemy ⟨15/2, 0⟩ 4)]
        1).1.object.transform.position.trans = ⟨15, 0⟩ ∧
    (Projectile.tick rotZero classicProj [(3, circleEnemy ⟨15/2, 0⟩ 4)]
        1).1.enemies_hit = [] ∧
    (poolGet (Projectile.tick rotZero classicProj
        [(3, circleEnemy ⟨15/2, 0⟩ 4)] 1).2.1 3).map Enemy.health = some 4 ∧
    Shape.is_colliding (.rectangle ⟨2/5, 1/10⟩) (.circle (1/2))
      ⟨Rot.one, ⟨0, 0⟩⟩ = true := by
  refine ⟨by decide, by decide, by decide, by decide⟩

/-!  C8: `tick(0.0)` is not a no-op.  -/

/-- Claim C8, amended: with `dt = 0` the projectile does not move — its
position and rotation are exactly preserved (exactly, over `ℚ`, given that
`UnitComplex::new 0` is the identity rotation).  The rest of the claim
fails: collision processing still runs at `dt = 0`, so enemy health, the
contact sets, and the particle pool can all change (see the
counterexample), and `linear_velocity` is rewritten from the current
speed. -/
theorem c8_no_motion_at_zero_dt (rotAngle : ℚ → Rot) (p : Projectile)
    (pool : EnemyPool) (hr : rotAngle 0 = Rot.one) :
    (Projectile.tick rotAngle p pool 0).1.object.transform.position =
      p.object.transform.position := by
  by_cases hd : p.should_delete = true
  · rw [c9_early_return_noop rotAngle p pool 0 hd]
  · have hd' : p.should_delete = false := by
      cases hsd : p.should_delete
      · rfl
      · exact absurd hsd hd
    rw [Projectile.tick_object rotAngle p pool 0 hd',
      Projectile.movePhase_position, mul_zero, hr, Rot.one_mulR,
      Vec2.scale_zero, Vec2.add_zero_right]

/-- Witness for the amended C8: the Classic projectile overlapping a live
enemy keeps its exact position under `tick(0.0)`. -/
theorem c8_no_motion_at_zero_dt_witness :
    rotZero 0 = Rot.one ∧
    (Projectile.tick rotZero classicProj [(2, circleEnemy ⟨1/2, 0⟩ 4)]
        0).1.object.transform.position =
      classicProj.object.transform.position :=
  ⟨rfl, c8_no_motion_at_zero_dt rotZero classicProj
    [(2, circleEnemy ⟨1/2, 0⟩ 4)] rfl⟩

/-- Counterexample to claim C8 as stated: `tick(0.0)` is **not** a no-op.
A Classic projectile (damage 4) spawned overlapping a health-4 enemy, ticked
with `dt = 0`: the enemy's health drops to 0, the enemy is exploded, the key
enters `hit`, and 4 hit particles are inserted — enemy pool, contact sets
and particle pool all change. -/
theorem c8_counterexample_zero_dt_mutates :
    (poolGet (Projectile.tick rotZero classicProj
        [(2, circleEnemy ⟨1/2, 0⟩ 4)] 0).2.1 2).map Enemy.health = some 0 ∧
    (Projectile.tick rotZero classicProj [(2, circleEnemy ⟨1/2, 0⟩ 4)]
        0).1.enemies_hit = [2] ∧
    (Projectile.tick rotZero classicProj [(2, circleEnemy ⟨1/2, 0⟩ 4)]
        0).2.2.explosions = [2] ∧
    (Projectile.tick rotZero classicProj [(2, circleEnemy ⟨1/2, 0⟩ 4)]
        0).2.2.particles = 4 := by
  refine ⟨by decide, by decide, by decide, by decide⟩

/-!  C1: the damage-dedup guard keys on `colliding ∪ intersecting`, not on
`hit`.  -/

/-- The damage loop skips an enemy whose key is already in `colliding` or
`intersecting` — this, not membership in `hit`, is the guard at
`projectile.rs:194`. -/
theorem Projectile.hitStep_skip (p : Projectile) (k : ℕ) (e : Enemy)
    (h : k ∈ p.enemies_colliding ∨ k ∈ p.enemies_intersecting) :
    p.hitStep k e = (p, e, EventLog.empty) := by
  unfold Projectile.hitStep
  have hc : (p.enemies_intersecting.contains k ||
      p.enemies_colliding.contains k) = true := by
    rcases h with h | h <;> simp [h]
  rw [hc]
  simp

/-- The damage-loop step only appends to the contact sets. -/
theorem Projectile.hitStep_sets_superset (p : Projectile) (k' : ℕ) (e : Enemy)
    (k : ℕ) (h : k ∈ p.enemies_colliding ∨ k ∈ p.enemies_intersecting) :
    k ∈ (p.hitStep k' e).1.enemies_colliding ∨
      k ∈ (p.hitStep k' e).1.enemies_intersecting := by
  unfold Projectile.hitStep
  split
  · dsimp only
    split
    · exact h
    · rcases h with h | h
      · exact Or.inl (List.mem_append_left _ h)
      · exact Or.inr (List.mem_append_left _ h)
  · exact h

/-- The damage-loop step at a key other than `k` leaves `hit`'s count of
`k` unchanged. -/
theorem Projectile.hitStep_hit_count (p : Projectile) (k' : ℕ) (e : Enemy)
    (k : ℕ) (hk : k' ≠ k) :
    (p.hitStep k' e).1.enemies_hit.count k = p.enemies_hit.count k := by
  unfold Projectile.hitStep
  split
  · dsimp only
    split <;> simp [List.count_append, List.count_eq_zero, Ne.symm hk]
  · rfl

/-- Over a whole damage loop, a key already in `colliding` or
`intersecting` at entry is never struck: its pooled enemy is unchanged and
its multiplicity in `hit` is unchanged. -/
theorem Projectile.hitLoop_skip_mem (p : Projectile) (pool : EnemyPool)
    (k : ℕ) (h : k ∈ p.enemies_colliding ∨ k ∈ p.enemies_intersecting) :
    poolGet (p.hitLoop pool).2.1 k = poolGet pool k ∧
      (p.hitLoop pool).1.enemies_hit.count k = p.enemies_hit.count k := by
  induction pool generalizing p with
  | nil => exact ⟨rfl, rfl⟩
  | cons ke rest ih =>
      obtain ⟨k', e⟩ := ke
      show poolGet ((k', (p.hitStep k' e).2.1) ::
          ((p.hitStep k' e).1.hitLoop rest).2.1) k = _ ∧
        ((p.hitStep k' e).1.hitLoop rest).1.enemies_hit.count k = _
      by_cases hk : k' = k
      · subst hk
        rw [Projectile.hitStep_skip p k' e h]
        exact ⟨by simp [poolGet], (ih p h).2⟩
      · have h₁ := Projectile.hitStep_sets_superset p k' e k h
        obtain ⟨ihp, ihc⟩ := ih (p.hitStep k' e).1 h₁
        constructor
        · simpa [poolGet, hk] using ihp
        · rw [ihc, Projectile.hitStep_hit_count p k' e k hk]

/-- Claim C1, amended: the hit-once guarantee holds only per *contact
episode*, not per projectile lifetime.  The damage-loop guard checks
`enemies_intersecting`/`enemies_colliding` — not `enemies_hit` — so while a
key stays in either set the enemy is not damaged again and its multiplicity
in `hit` is unchanged; but once contact ends (the retains prune the key)
and overlap resumes in a later frame, the same enemy is damaged again and
its key is pushed into `hit` a second time (see the counterexample). -/
theorem c1_no_rehit_while_tracked (rotAngle : ℚ → Rot) (p : Projectile)
    (pool : EnemyPool) (dt : ℚ) (k : ℕ)
    (h : k ∈ p.enemies_colliding ∨ k ∈ p.enemies_intersecting) :
    poolGet (Projectile.tick rotAngle p pool dt).2.1 k = poolGet pool k ∧
      (Projectile.tick rotAngle p pool dt).1.enemies_hit.count k =
        p.enemies_hit.count k := by
  by_cases hd : p.should_delete = true
  · rw [c9_early_return_noop rotAngle p pool dt hd]
    exact ⟨rfl, rfl⟩
  · have hd' : p.should_delete = false := by
      cases hsd : p.should_delete
      · rfl
      · exact absurd hsd hd
    rw [Projectile.tick_pool rotAngle p pool dt hd',
      Projectile.tick_hit rotAngle p pool dt hd']
    have hm : k ∈ (p.movePhase rotAngle dt).1.enemies_colliding ∨
        k ∈ (p.movePhase rotAngle dt).1.enemies_intersecting := by
      rw [Projectile.movePhase_colliding, Projectile.movePhase_intersecting]
      exact h
    obtain ⟨h₁, h₂⟩ :=
      Projectile.hitLoop_skip_mem (p.movePhase rotAngle dt).1 pool k hm
    exact ⟨h₁, by rw [h₂, Projectile.movePhase_hit]⟩

/-- A Classic projectile already tracking enemy 7 in all three sets. -/
def trackedProj : Projectile :=
  { classicProj with
      enemies_colliding := [7]
      enemies_intersecting := [7]
      enemies_hit := [7] }

/-- The pool of the C1 scenarios: enemy 7, a radius-`1/2` circle. -/
def c1Pool : EnemyPool := [(7, circleEnemy ⟨1/2, 0⟩ 12)]

/-- Witness for the amended C1: a projectile already tracking key 7 in
`colliding` ticked against a pool containing enemy 7 overlapping it —
enemy 7 is not damaged and its count in `hit` stays `1`. -/
theorem c1_no_rehit_while_tracked_witness :
    (7 ∈ trackedProj.enemies_colliding ∨
      7 ∈ trackedProj.enemies_intersecting) ∧
    (poolGet (Projectile.tick rotZero trackedProj c1Pool 0).2.1 7 =
      poolGet c1Pool 7 ∧
    (Projectile.tick rotZero trackedProj c1Pool 0).1.enemies_hit.count 7 =
      trackedProj.enemies_hit.count 7) :=
  ⟨Or.inl (by decide),
    c1_no_rehit_while_tracked rotZero trackedProj c1Pool 0 7
      (Or.inl (by decide))⟩

/-- C1 counterexample, frame 1 (`dt = 0`): projectile overlapping enemy 7
at `(1/2, 0)` — the enemy is damaged `12 → 8` and enters all three sets. -/
def c1Frame1 : Projectile × EnemyPool × EventLog :=
  Projectile.tick rotZero classicProj c1Pool 0

/-- C1 counterexample, frame 2: the pool evolved — enemy 7 moved to
`(100, 0)` — so the retains prune it from `colliding` and `intersecting`
(`hit` keeps it). -/
def c1Frame2 : Projectile × EnemyPool × EventLog :=
  Projectile.tick rotZero c1Frame1.1 (relocate c1Frame1.2.1 ⟨100, 0⟩) 0

/-- C1 counterexample, frame 3: enemy 7 moved back into overlap; the guard
consults only `colliding`/`intersecting`, so the enemy is struck again. -/
def c1Frame3 : Projectile × EnemyPool × EventLog :=
  Projectile.tick rotZero c1Frame2.1 (relocate c1Frame2.2.1 ⟨1/2, 0⟩) 0

/-- Counterexample to claim C1 as stated: across the three frames above, a
piercing projectile damages the *same* enemy twice (health `12 → 8 → 4`)
and key 7 appears **twice** in `hit` — the hit-once-per-projectile
guarantee does not hold once contact ends and resumes, because the guard
never consults `enemies_hit`. -/
theorem c1_counterexample_double_hit :
    c1Frame3.1.enemies_hit = [7, 7] ∧
    (poolGet c1Frame3.2.1 7).map Enemy.health = some 4 := by
  refine ⟨by decide, by decide⟩

/-!  C10: the `intersecting` postcondition.  -/

/-- Claim C10, amended: the guarantee holds for every tick that does not
take the early return — i.e. whenever `should_delete()` is false at entry.
Then after `Projectile::tick`, every key in `enemies_intersecting` refers
to an enemy present in the pool, with health above zero, whose exact
hitbox overlaps the projectile's exact hitbox (all three conditions are
re-checked by the final `retain`).  After an early return the set is left
stale and can name enemies that are gone (see the counterexample). -/
theorem c10_intersecting_live_overlap (rotAngle : ℚ → Rot) (p : Projectile)
    (pool : EnemyPool) (dt : ℚ) (h : p.should_delete = false) :
    ∀ k ∈ (Projectile.tick rotAngle p pool dt).1.enemies_intersecting,
      ∃ e, poolGet (Projectile.tick rotAngle p pool dt).2.1 k = some e ∧
        e.health ≠ 0 ∧
        (Projectile.tick rotAngle p pool dt).1.object.is_colliding e.object
          = true := by
  intro k hk
  rw [Projectile.tick_intersecting rotAngle p pool dt h,
    List.mem_filter] at hk
  obtain ⟨-, hpred⟩ := hk
  rw [Projectile.tick_pool rotAngle p pool dt h]
  rw [Projectile.tick_object rotAngle p pool dt h]
  unfold Projectile.intersectingRetain at hpred
  cases hg : poolGet ((p.movePhase rotAngle dt).1.hitLoop pool).2.1 k with
  | none => rw [hg] at hpred; exact absurd hpred (by simp)
  | some e =>
      rw [hg] at hpred
      simp only [Bool.and_eq_true, Bool.not_eq_true'] at hpred
      refine ⟨e, rfl, ?_, ?_⟩
      · have h₁ := hpred.1
        simpa [Enemy.should_delete] using h₁
      · have h₂ := hpred.2
        rwa [Projectile.hitLoop_object] at h₂

/-- Witness for the amended C10: a Rapid projectile that just struck a
surviving enemy — key 5 is in `intersecting` and the postcondition holds. -/
theorem c10_intersecting_live_overlap_witness :
    rapidProj.should_delete = false ∧
    5 ∈ (Projectile.tick rotZero rapidProj [(5, circleEnemy ⟨3/10, 0⟩ 4)]
      0).1.enemies_intersecting ∧
    (∃ e, poolGet (Projectile.tick rotZero rapidProj
        [(5, circleEnemy ⟨3/10, 0⟩ 4)] 0).2.1 5 = some e ∧
      e.health ≠ 0 ∧
      (Projectile.tick rotZero rapidProj [(5, circleEnemy ⟨3/10, 0⟩ 4)]
        0).1.object.is_colliding e.object = true) :=
  ⟨by decide, by decide,
    c10_intersecting_live_overlap rotZero rapidProj
      [(5, circleEnemy ⟨3/10, 0⟩ 4)] 0 (by decide) 5 (by decide)⟩

/-- A spent Rapid projectile whose `intersecting` set still names key 4. -/
def staleProj : Projectile :=
  { rapidProj with
      enemies_hit := [1]
      enemies_intersecting := [4] }

/-- Counterexample to claim C10 as stated: a non-piercing projectile with a
non-empty `hit` set takes the early return (`projectile.rs:148-150`), so
`tick` leaves `intersecting = [4]` even against an empty pool — key 4
refers to no pooled enemy at all immediately after `tick` returns. -/
theorem c10_counterexample_stale_after_early_return :
    (Projectile.tick rotZero staleProj [] 1).1.enemies_intersecting = [4] ∧
    poolGet (Projectile.tick rotZero staleProj [] 1).2.1 4 = none := by
  refine ⟨by decide, by decide⟩

/-!  C4: explosion timing — no liveness check before a strike.  -/

/-- The damage-loop step records either no explosion, or exactly one
explosion of the struck key, whose enemy it leaves at health `0`. -/
theorem Projectile.hitStep_explosions (p : Projectile) (k : ℕ) (e : Enemy) :
    (p.hitStep k e).2.2.explosions = [] ∨
      ((p.hitStep k e).2.2.explosions = [k] ∧
        (p.hitStep k e).2.1.health = 0) := by
  unfold Projectile.hitStep
  split
  · dsimp only
    split
    · rename_i hsd
      right
      exact ⟨rfl, by simpa [Enemy.should_delete] using hsd⟩
    · left; rfl
  · left; rfl

/-- Over a damage loop on a pool with distinct keys: the recorded
explosions are distinct pool keys, and each exploded key's enemy is left in
the pool (not removed!) with health `0`. -/
theorem Projectile.hitLoop_explosions (p : Projectile) (pool : EnemyPool)
    (hnd : (pool.map Prod.fst).Nodup) :
    ((p.hitLoop pool).2.2.explosions ⊆ pool.map Prod.fst) ∧
    (p.hitLoop pool).2.2.explosions.Nodup ∧
    ∀ k ∈ (p.hitLoop pool).2.2.explosions,
      ∃ e, poolGet (p.hitLoop pool).2.1 k = some e ∧ e.health = 0 := by
  induction pool generalizing p with
  | nil =>
      refine ⟨by simp [Projectile.hitLoop, EventLog.empty], ?_, ?_⟩ <;>
        simp [Projectile.hitLoop, EventLog.empty]
  | cons ke rest ih =>
      obtain ⟨k', e⟩ := ke
      simp only [List.map_cons, List.nodup_cons] at hnd
      obtain ⟨hk', hrest⟩ := hnd
      obtain ⟨ih₁, ih₂, ih₃⟩ := ih (p.hitStep k' e).1 hrest
      have hexp : (p.hitLoop ((k', e) :: rest)).2.2.explosions =
          (p.hitStep k' e).2.2.explosions ++
            ((p.hitStep k' e).1.hitLoop rest).2.2.explosions := rfl
      have hpool : (p.hitLoop ((k', e) :: rest)).2.1 =
          (k', (p.hitStep k' e).2.1) ::
            ((p.hitStep k' e).1.hitLoop rest).2.1 := rfl
      rcases Projectile.hitStep_explosions p k' e with hs | ⟨hs, hh⟩
      · rw [hexp, hpool, hs, List.nil_append]
        refine ⟨fun a ha => List.mem_cons_of_mem _ (ih₁ ha), ih₂, ?_⟩
        intro k hk
        obtain ⟨e', he', hh'⟩ := ih₃ k hk
        have hne : k' ≠ k := fun hEq => hk' (hEq ▸ ih₁ hk)
        exact ⟨e', by simp [poolGet, hne, he'], hh'⟩
      · rw [hexp, hpool, hs, List.singleton_append]
        have hnotin : k' ∉ ((p.hitStep k' e).1.hitLoop rest).2.2.explosions :=
          fun hmem => hk' (ih₁ hmem)
        refine ⟨?_, List.nodup_cons.mpr ⟨hnotin, ih₂⟩, ?_⟩
        · intro a ha
          rcases List.mem_cons.mp ha with rfl | ha
          · exact List.mem_cons_self _ _
          · exact List.mem_cons_of_mem _ (ih₁ ha)
        · intro k hk
          rcases List.mem_cons.mp hk with rfl | hk
          · exact ⟨(p.hitStep k e).2.1, by simp [poolGet], hh⟩
          · obtain ⟨e', he', hh'⟩ := ih₃ k hk
            have hne : k' ≠ k := fun hEq => hk' (hEq ▸ ih₁ hk)
            exact ⟨e', by simp [poolGet, hne, he'], hh'⟩

/-- Claim C4, amended: within one `Projectile::tick`, each pooled enemy is
exploded at most once (the explosion keys are distinct), and every
explosion happens at a strike that leaves that enemy's health at `0` — but
the struck enemy is left in the pool rather than removed (removal happens
only in `Game::tick`'s enemy pruning, *after* every projectile has
ticked), and the damage loop performs **no** liveness check, so a second
projectile ticked in the same game tick can strike the dead enemy again
and re-explode it (see the counterexample). -/
theorem c4_explosions_leave_health_zero (rotAngle : ℚ → Rot) (p : Projectile)
    (pool : EnemyPool) (dt : ℚ) (hnd : (pool.map Prod.fst).Nodup) :
    (Projectile.tick rotAngle p pool dt).2.2.explosions.Nodup ∧
    ∀ k ∈ (Projectile.tick rotAngle p pool dt).2.2.explosions,
      ∃ e, poolGet (Projectile.tick rotAngle p pool dt).2.1 k = some e ∧
        e.health = 0 := by
  by_cases hd : p.should_delete = true
  · rw [c9_early_return_noop rotAngle p pool dt hd]
    exact ⟨List.nodup_nil, by simp [EventLog.empty]⟩
  · have hd' : p.should_delete = false := by
      cases hsd : p.should_delete
      · rfl
      · exact absurd hsd hd
    rw [Projectile.tick_explosions rotAngle p pool dt hd',
      Projectile.tick_pool rotAngle p pool dt hd']
    obtain ⟨-, h₂, h₃⟩ :=
      Projectile.hitLoop_explosions (p.movePhase rotAngle dt).1 pool hnd
    exact ⟨h₂, h₃⟩

/-- Witness for the amended C4: one Rapid projectile kills enemy 6
(health 2, damage 2) — one explosion, key distinct, health left at 0. -/
theorem c4_explosions_leave_health_zero_witness :
    (([(6, circleEnemy ⟨3/10, 0⟩ 2)] : EnemyPool).map Prod.fst).Nodup ∧
    ((Projectile.tick rotZero rapidProj [(6, circleEnemy ⟨3/10, 0⟩ 2)]
        0).2.2.explosions.Nodup ∧
      ∀ k ∈ (Projectile.tick rotZero rapidProj
          [(6, circleEnemy ⟨3/10, 0⟩ 2)] 0).2.2.explosions,
        ∃ e, poolGet (Projectile.tick rotZero rapidProj
            [(6, circleEnemy ⟨3/10, 0⟩ 2)] 0).2.1 k = some e ∧
          e.health = 0) :=
  ⟨by decide,
    c4_explosions_leave_health_zero rotZero rapidProj
      [(6, circleEnemy ⟨3/10, 0⟩ 2)] 0 (by decide)⟩

/-- Counterexample to claim C4 as stated: two Rapid projectiles (damage 2,
non-piercing) both overlapping enemy 5 (health 2) in the same `Game::tick`
projectile phase.  The first strike kills and explodes the enemy; the
enemy is **not** removed from the pool (removal only happens in the enemy
pruning after all projectiles tick, `game.rs:53`), and the second
projectile's damage loop checks no liveness, so it strikes the dead enemy
and explodes it **again**: two explosion events for one enemy, and the
dead enemy (health 0) is still pooled after the projectile phase. -/
theorem c4_counterexample_double_explode :
    (tickProjectiles rotZero (.rectangle ⟨1000, 1000⟩) [rapidProj, rapidProj]
      [(5, circleEnemy ⟨3/10, 0⟩ 2)] 0).2.2.explosions = [5, 5] ∧
    (poolGet (tickProjectiles rotZero (.rectangle ⟨1000, 1000⟩)
      [rapidProj, rapidProj] [(5, circleEnemy ⟨3/10, 0⟩ 2)]
      0).2.1 5).map Enemy.health = some 0 := by
  refine ⟨by decide, by decide⟩

/-!  C7: pixel conservation in the ShatterDecomposer.

Phase-1 chain: `num_valid_pixels` equals the number of solid, still
ungrouped pixels throughout, so on normal exit (`num_valid_pixels == 0`)
every solid pixel carries a group id.  -/

theorem Grid.set_self {α : Type} (g : Grid α) (x y : ℕ) (v : α) :
    (g.set x y v) x y = some v := by
  simp [Grid.set]

theorem Grid.set_other {α : Type} (g : Grid α) (x y a b : ℕ) (v : α)
    (h : ¬(a = x ∧ b = y)) : (g.set x y v) a b = g a b := by
  simp [Grid.set, h]

/-- Writing a group id into an in-range, solid, ungrouped cell lowers the
ungrouped-solid count by exactly one. -/
theorem ungroupedCount_set (m : Mask) (g : Grid ℕ) (x y gid : ℕ)
    (hx : x < m.W) (hy : y < m.H) (hs : m.solid x y = true)
    (hn : g x y = none) :
    ungroupedCount m (g.set x y gid) = ungroupedCount m g - 1 ∧
      1 ≤ ungroupedCount m g := by
  have hmem : (x, y) ∈ ((Finset.range m.W) ×ˢ (Finset.range m.H)).filter
      (fun c => m.solid c.1 c.2 = true ∧ g c.1 c.2 = none) := by
    simp [Finset.mem_filter, Finset.mem_product, hx, hy, hs, hn]
  have hfilter : ((Finset.range m.W) ×ˢ (Finset.range m.H)).filter
      (fun c => m.solid c.1 c.2 = true ∧ (g.set x y gid) c.1 c.2 = none) =
      (((Finset.range m.W) ×ˢ (Finset.range m.H)).filter
        (fun c => m.solid c.1 c.2 = true ∧ g c.1 c.2 = none)).erase (x, y) := by
    ext c
    obtain ⟨a, b⟩ := c
    by_cases hc : a = x ∧ b = y
    · obtain ⟨rfl, rfl⟩ := hc
      simp [Finset.mem_filter, Finset.mem_erase, Grid.set]
    · simp only [Finset.mem_filter, Finset.mem_erase, Grid.set_other _ _ _ _ _ _ hc]
      constructor
      · rintro ⟨hin, hsol, hnone⟩
        refine ⟨?_, hin, hsol, hnone⟩
        intro hEq
        rw [Prod.mk.injEq] at hEq
        exact hc hEq
      · rintro ⟨-, hin, hsol, hnone⟩
        exact ⟨hin, hsol, hnone⟩
  constructor
  · rw [ungroupedCount, ungroupedCount, hfilter,
      Finset.card_erase_of_mem hmem]
  · exact Finset.card_pos.mpr ⟨(x, y), hmem⟩ |>.nat_succ_le.trans (le_refl _)

/-- Cells of a bounding box are bounded by its corners. -/
theorem boxCells_bounds (bb : BBox) (c : ℕ × ℕ) (h : c ∈ boxCells bb) :
    c.1 ≤ bb.maxx ∧ c.2 ≤ bb.maxy := by
  unfold boxCells at h
  rw [List.mem_flatMap] at h
  obtain ⟨a, ha, hc⟩ := h
  rw [List.mem_map] at hc
  obtain ⟨b, hb, rfl⟩ := hc
  rw [List.mem_range'] at ha hb
  obtain ⟨i, hi, rfl⟩ := ha
  obtain ⟨j, hj, rfl⟩ := hb
  constructor <;> [omega; omega]

/-- The stamping fold preserves the `num_valid_pixels` invariant. -/
theorem stampCells_inv (m : Mask) (gid : ℕ) (cells : List (ℕ × ℕ))
    (hc : ∀ c ∈ cells, c.1 < m.W ∧ c.2 < m.H) (g : Grid ℕ) (nv : ℕ)
    (hinv : nv = ungroupedCount m g) :
    (stampCells m gid cells g nv).2 =
      ungroupedCount m (stampCells m gid cells g nv).1 := by
  induction cells generalizing g nv with
  | nil => exact hinv
  | cons c rest ih =>
      obtain ⟨a, b⟩ := c
      obtain ⟨ha, hb⟩ := hc (a, b) (List.mem_cons_self _ _)
      by_cases hg : g a b = none ∧ m.solid a b = true
      · have hstep : stampCells m gid ((a, b) :: rest) g nv =
            stampCells m gid rest (g.set a b gid) (nv - 1) := by
          unfold stampCells
          rw [List.foldl_cons, if_pos hg]
        rw [hstep]
        obtain ⟨hcard, hpos⟩ := ungroupedCount_set m g a b gid ha hb hg.2 hg.1
        exact ih (fun c hcm => hc c (List.mem_cons_of_mem _ hcm))
          (g.set a b gid) (nv - 1) (by rw [hinv, hcard])
      · have hstep : stampCells m gid ((a, b) :: rest) g nv =
            stampCells m gid rest g nv := by
          unfold stampCells
          rw [List.foldl_cons, if_neg hg]
        rw [hstep]
        exact ih (fun c hcm => hc c (List.mem_cons_of_mem _ hcm)) g nv hinv

/-- `stampOnce` preserves the `num_valid_pixels` invariant. -/
theorem stampOnce_inv (m : Mask) (g : Grid ℕ) (nv gid px py w h ox oy : ℕ)
    (hinv : nv = ungroupedCount m g) (g' : Grid ℕ) (nv' : ℕ)
    (hsome : stampOnce m g nv gid px py w h ox oy = some (g', nv')) :
    nv' = ungroupedCount m g' := by
  unfold stampOnce at hsome
  split at hsome
  · rename_i hrange
    rw [Option.some.injEq] at hsome
    have hc : ∀ c ∈ boxCells (clampBox m px py w h ox oy),
        c.1 < m.W ∧ c.2 < m.H := by
      intro c hcm
      obtain ⟨h1, h2⟩ := boxCells_bounds _ c hcm
      exact ⟨lt_of_le_of_lt h1 hrange.1, lt_of_le_of_lt h2 hrange.2⟩
    have hfold := stampCells_inv m gid (boxCells (clampBox m px py w h ox oy))
      hc g nv hinv
    rw [hsome] at hfold
    exact hfold
  · exact absurd hsome (by simp)

/-- `stampReps` preserves the `num_valid_pixels` invariant. -/
theorem stampReps_inv (m : Mask) (rng : ℕ → ℕ) (gid px py : ℕ) (reps : ℕ)
    (g : Grid ℕ) (nv cursor : ℕ) (hinv : nv = ungroupedCount m g)
    (g' : Grid ℕ) (nv' cursor' : ℕ)
    (hsome : stampReps m rng gid px py reps g nv cursor =
      some (g', nv', cursor')) :
    nv' = ungroupedCount m g' := by
  induction reps generalizing g nv cursor with
  | zero =>
      unfold stampReps at hsome
      rw [Option.some.injEq] at hsome
      cases hsome
      exact hinv
  | succ reps ih =>
      unfold stampReps at hsome
      split at hsome
      · exact absurd hsome (by simp)
      · rename_i out hstamp
        exact ih out.1 out.2 (cursor + 4)
          (stampOnce_inv m g nv gid px py _ _ _ _ hinv out.1 out.2
            (by rw [hstamp]))
          hsome

/-- On success, phase 1 exits with no solid pixel left ungrouped, given
that `num_valid_pixels` entered equal to the ungrouped-solid count. -/
theorem phase1_exit_count (m : Mask) (rng : ℕ → ℕ) (fuel : ℕ) :
    ∀ (g : Grid ℕ) (nv gid cursor : ℕ), nv = ungroupedCount m g →
    ∀ gids, phase1 m rng fuel g nv gid cursor = some gids →
    ungroupedCount m gids = 0 := by
  induction fuel with
  | zero => intro g nv gid cursor _ gids hsome; exact absurd hsome (by simp [phase1])
  | succ fuel ih =>
      intro g nv gid cursor hinv gids hsome
      unfold phase1 at hsome
      by_cases hz : nv = 0
      · rw [if_pos hz, Option.some.injEq] at hsome
        rw [← hsome, ← hinv, hz]
      · rw [if_neg hz] at hsome
        split at hsome
        · exact absurd hsome (by simp)
        · rename_i idx hseek
          split at hsome
          · exact absurd hsome (by simp)
          · rename_i out hreps
            exact ih out.1 out.2.1 (gid + 1) out.2.2
              (stampReps_inv m rng gid _ _ _ g nv (cursor + 2) hinv
                out.1 out.2.1 out.2.2 (by rw [hreps]))
              gids hsome

/-- Phase-1 coverage: on success every in-range solid pixel carries a
group id. -/
theorem phase1Run_covered (m : Mask) (rng : ℕ → ℕ) (fuel : ℕ)
    (gids : Grid ℕ) (hsome : phase1Run m rng fuel = some gids)
    (x y : ℕ) (hx : x < m.W) (hy : y < m.H) (hs : m.solid x y = true) :
    gids x y ≠ none := by
  intro hnone
  have hcount := phase1_exit_count m rng fuel Grid.empty
    (ungroupedCount m Grid.empty) 1 0 rfl gids hsome
  have hmem : (x, y) ∈ ((Finset.range m.W) ×ˢ (Finset.range m.H)).filter
      (fun c => m.solid c.1 c.2 = true ∧ gids c.1 c.2 = none) := by
    simp [Finset.mem_filter, Finset.mem_product, hx, hy, hs, hnone]
  have : 0 < ungroupedCount m gids := Finset.card_pos.mpr ⟨(x, y), hmem⟩
  omega

/-!  Phase-3 chain: the flood fill assigns each group-id-bearing pixel
exactly one fresh key, and the recorded tight box contains every pixel of
its key.  -/

theorem BBox.inBox_expandToFit_self (bb : BBox) (x y : ℕ) :
    (bb.expandToFit x y).inBox x y = true := by
  simp [BBox.expandToFit, BBox.inBox]

theorem BBox.inBox_expandToFit_mono (bb : BBox) (x y a b : ℕ)
    (h : bb.inBox a b = true) : (bb.expandToFit x y).inBox a b = true := by
  simp only [BBox.expandToFit, BBox.inBox, decide_eq_true_eq] at h ⊢
  omega

/-- The flood fill never unassigns or overwrites a key. -/
theorem fillLoop_mono (m : Mask) (gids : Grid ℕ) (gid newKey : ℕ) :
    ∀ (fuel : ℕ) (keys : Grid ℕ) (stack : List (ℤ × ℤ)) (bb : BBox)
      (K : Grid ℕ) (B : BBox),
    fillLoop m gids gid newKey fuel keys stack bb = some (K, B) →
    ∀ a b k, keys a b = some k → K a b = some k := by
  intro fuel
  induction fuel with
  | zero =>
      intro keys stack bb K B hsome a b k hk
      unfold fillLoop at hsome
      split at hsome
      · rw [Option.some.injEq] at hsome
        cases hsome
        exact hk
      · exact absurd hsome (by simp)
  | succ fuel ih =>
      intro keys stack bb K B hsome a b k hk
      cases stack with
      | nil =>
          unfold fillLoop at hsome
          rw [Option.some.injEq] at hsome
          cases hsome
          exact hk
      | cons c rest =>
          obtain ⟨ix, iy⟩ := c
          unfold fillLoop at hsome
          split at hsome
          · split at hsome
            · split at hsome
              · rename_i hbounds hnone hgid
                refine ih _ _ _ K B hsome a b k ?_
                by_cases hab : a = ix.toNat ∧ b = iy.toNat
                · obtain ⟨rfl, rfl⟩ := hab
                  rw [hnone] at hk
                  cases hk
                · rw [Grid.set_other _ _ _ _ _ _ hab]
                  exact hk
              · exact ih _ _ _ K B hsome a b k hk
            · exact ih _ _ _ K B hsome a b k hk
          · exact ih _ _ _ K B hsome a b k hk

/-- The flood fill assigns only the value `newKey`. -/
theorem fillLoop_newOnly (m : Mask) (gids : Grid ℕ) (gid newKey : ℕ) :
    ∀ (fuel : ℕ) (keys : Grid ℕ) (stack : List (ℤ × ℤ)) (bb : BBox)
      (K : Grid ℕ) (B : BBox),
    fillLoop m gids gid newKey fuel keys stack bb = some (K, B) →
    ∀ a b k, K a b = some k → keys a b = some k ∨ k = newKey := by
  intro fuel
  induction fuel with
  | zero =>
      intro keys stack bb K B hsome a b k hk
      unfold fillLoop at hsome
      split at hsome
      · rw [Option.some.injEq] at hsome
        cases hsome
        exact Or.inl hk
      · exact absurd hsome (by simp)
  | succ fuel ih =>
      intro keys stack bb K B hsome a b k hk
      cases stack with
      | nil =>
          unfold fillLoop at hsome
          rw [Option.some.injEq] at hsome
          cases hsome
          exact Or.inl hk
      | cons c rest =>
          obtain ⟨ix, iy⟩ := c
          unfold fillLoop at hsome
          split at hsome
          · split at hsome
            · split at hsome
              · rcases ih _ _ _ K B hsome a b k hk with hset | hnew
                · by_cases hab : a = ix.toNat ∧ b = iy.toNat
                  · obtain ⟨rfl, rfl⟩ := hab
                    rw [Grid.set_self] at hset
                    rw [Option.some.injEq] at hset
                    exact Or.inr hset.symm
                  · rw [Grid.set_other _ _ _ _ _ _ hab] at hset
                    exact Or.inl hset
                · exact Or.inr hnew
              · exact ih _ _ _ K B hsome a b k hk
            · exact ih _ _ _ K B hsome a b k hk
          · exact ih _ _ _ K B hsome a b k hk

/-- The flood fill's box contains every pixel holding `newKey`, provided
it already contained the pixels holding `newKey` at entry. -/
theorem fillLoop_box (m : Mask) (gids : Grid ℕ) (gid newKey : ℕ) :
    ∀ (fuel : ℕ) (keys : Grid ℕ) (stack : List (ℤ × ℤ)) (bb : BBox)
      (K : Grid ℕ) (B : BBox),
    fillLoop m gids gid newKey fuel keys stack bb = some (K, B) →
    (∀ a b, keys a b = some newKey → bb.inBox a b = true) →
    ∀ a b, K a b = some newKey → B.inBox a b = true := by
  intro fuel
  induction fuel with
  | zero =>
      intro keys stack bb K B hsome hpre a b hk
      unfold fillLoop at hsome
      split at hsome
      · rw [Option.some.injEq] at hsome
        cases hsome
        exact hpre a b hk
      · exact absurd hsome (by simp)
  | succ fuel ih =>
      intro keys stack bb K B hsome hpre a b hk
      cases stack with
      | nil =>
          unfold fillLoop at hsome
          rw [Option.some.injEq] at hsome
          cases hsome
          exact hpre a b hk
      | cons c rest =>
          obtain ⟨ix, iy⟩ := c
          unfold fillLoop at hsome
          split at hsome
          · split at hsome
            · split at hsome
              · refine ih _ _ _ K B hsome ?_ a b hk
                intro a' b' hk'
                by_cases hab : a' = ix.toNat ∧ b' = iy.toNat
                · obtain ⟨rfl, rfl⟩ := hab
                  exact BBox.inBox_expandToFit_self bb _ _
                · rw [Grid.set_other _ _ _ _ _ _ hab] at hk'
                  exact BBox.inBox_expandToFit_mono bb ix.toNat iy.toNat a' b'
                    (hpre a' b' hk')
              · exact ih _ _ _ K B hsome hpre a b hk
            · exact ih _ _ _ K B hsome hpre a b hk
          · exact ih _ _ _ K B hsome hpre a b hk

/-- If the flood fill succeeds on a seed that is in range, unkeyed, and
carries the fill's group id, the seed ends up keyed `newKey`. -/
theorem fillLoop_seed (m : Mask) (gids : Grid ℕ) (gid newKey : ℕ)
    (fuel : ℕ) (keys : Grid ℕ) (x y : ℕ) (stack : List (ℤ × ℤ)) (bb : BBox)
    (K : Grid ℕ) (B : BBox) (hx : x < m.W) (hy : y < m.H)
    (hkeys : keys x y = none) (hgid : gids x y = some gid)
    (hsome : fillLoop m gids gid newKey fuel keys
      (((x : ℤ), (y : ℤ)) :: stack) bb = some (K, B)) :
    K x y = some newKey := by
  cases fuel with
  | zero =>
      unfold fillLoop at hsome
      exact absurd hsome (by simp)
  | succ fuel =>
      unfold fillLoop at hsome
      rw [if_pos (by constructor; · positivity
                     constructor; · exact_mod_cast hx
                     constructor; · positivity
                     · exact_mod_cast hy)] at hsome
      rw [Int.toNat_natCast, Int.toNat_natCast, if_pos hkeys,
        if_pos hgid] at hsome
      exact fillLoop_mono m gids gid newKey fuel _ _ _ K B hsome x y newKey
        (Grid.set_self keys x y newKey)

/-- Full specification of the bounding-box pass (`enemy.rs:301-348`): on
success, (i) every keyed pixel's key has an entry in the emitted box list,
(ii) the emitted keys are distinct, (iii) each entry's box contains every
pixel keyed with its key, (iv) every processed cell carrying a group id
ends up keyed, and (v) existing keys are preserved. -/
theorem phase3Go_spec (m : Mask) (gids : Grid ℕ) (fillFuel : ℕ) :
    ∀ (cells : List (ℕ × ℕ)) (keys : Grid ℕ) (nk : ℕ)
      (acc : List (ℕ × BBox)) (K : Grid ℕ) (B : List (ℕ × BBox)),
    phase3Go m gids fillFuel cells keys nk acc = some (K, B) →
    (∀ a b k, keys a b = some k → k < nk) →
    (∀ e ∈ acc, e.1 < nk) →
    (acc.map Prod.fst).Nodup →
    (∀ e ∈ acc, ∀ a b, keys a b = some e.1 → e.2.inBox a b = true) →
    (∀ a b k, keys a b = some k → ∃ bb, (k, bb) ∈ acc) →
    (∀ c ∈ cells, c.1 < m.W ∧ c.2 < m.H) →
    ((∀ a b k, K a b = some k → ∃ bb, (k, bb) ∈ B) ∧
     (B.map Prod.fst).Nodup ∧
     (∀ e ∈ B, ∀ a b, K a b = some e.1 → e.2.inBox a b = true) ∧
     (∀ c ∈ cells, gids c.1 c.2 ≠ none → K c.1 c.2 ≠ none) ∧
     (∀ a b k, keys a b = some k → K a b = some k)) := by
  intro cells
  induction cells with
  | nil =>
      intro keys nk acc K B hsome hkb hab hnd hcont hex hcb
      unfold phase3Go at hsome
      rw [Option.some.injEq] at hsome
      cases hsome
      exact ⟨hex, hnd, hcont, by simp, fun a b k h => h⟩
  | cons c rest ih =>
      intro keys nk acc K B hsome hkb hab hnd hcont hex hcb
      obtain ⟨x, y⟩ := c
      unfold phase3Go at hsome
      split at hsome
      · rename_i hxy
        have hres := ih keys nk acc K B hsome hkb hab hnd hcont hex
          (fun c hc => hcb c (List.mem_cons_of_mem _ hc))
        refine ⟨hres.1, hres.2.1, hres.2.2.1, ?_, hres.2.2.2.2⟩
        intro c hc hg
        rcases List.mem_cons.mp hc with hEq | hc
        · subst hEq
          obtain ⟨k, hk⟩ := Option.ne_none_iff_exists'.mp hxy
          rw [hres.2.2.2.2 x y k hk]
          simp
        · exact hres.2.2.2.1 c hc hg
      · rename_i hxy
        have hkeysxy : keys x y = none := not_not.mp hxy
        split at hsome
        · rename_i hgid
          have hres := ih keys nk acc K B hsome hkb hab hnd hcont hex
            (fun c hc => hcb c (List.mem_cons_of_mem _ hc))
          refine ⟨hres.1, hres.2.1, hres.2.2.1, ?_, hres.2.2.2.2⟩
          intro c hc hg
          rcases List.mem_cons.mp hc with hEq | hc
          · subst hEq
            exact absurd hgid hg
          · exact hres.2.2.2.1 c hc hg
        · rename_i gid hgid
          split at hsome
          · exact absurd hsome (by simp)
          · rename_i keys' bb hfill
            obtain ⟨hx, hy⟩ := hcb (x, y) (List.mem_cons_self _ _)
            have hkb' : ∀ a b k, keys' a b = some k → k < nk + 1 := by
              intro a b k hk
              rcases fillLoop_newOnly m gids gid nk fillFuel keys _ _ keys'
                  bb hfill a b k hk with hold | hnew
              · exact Nat.lt_succ_of_lt (hkb a b k hold)
              · exact hnew ▸ Nat.lt_succ_self nk
            have hab' : ∀ e ∈ acc ++ [(nk, bb)], e.1 < nk + 1 := by
              intro e he
              rcases List.mem_append.mp he with he | he
              · exact Nat.lt_succ_of_lt (hab e he)
              · rw [List.mem_singleton] at he
                subst he
                exact Nat.lt_succ_self nk
            have hnd' : ((acc ++ [(nk, bb)]).map Prod.fst).Nodup := by
              rw [List.map_append]
              refine List.Nodup.append hnd (List.nodup_singleton _) ?_
              intro a ha hb
              rw [List.map_singleton, List.mem_singleton] at hb
              subst hb
              rw [List.mem_map] at ha
              obtain ⟨e, he, hfst⟩ := ha
              exact absurd (hfst ▸ hab e he) (lt_irrefl _)
            have hcont' : ∀ e ∈ acc ++ [(nk, bb)], ∀ a b,
                keys' a b = some e.1 → e.2.inBox a b = true := by
              intro e he a b hk
              rcases List.mem_append.mp he with he | he
              · rcases fillLoop_newOnly m gids gid nk fillFuel keys _ _ keys'
                    bb hfill a b e.1 hk with hold | hnew
                · exact hcont e he a b hold
                · exact absurd (hnew ▸ hab e he) (lt_irrefl _)
              · rw [List.mem_singleton] at he
                subst he
                refine fillLoop_box m gids gid nk fillFuel keys _ _ keys' bb
                  hfill ?_ a b hk
                intro a' b' hk'
                exact absurd (hkb a' b' nk hk') (lt_irrefl _)
            have hex' : ∀ a b k, keys' a b = some k →
                ∃ bb', (k, bb') ∈ acc ++ [(nk, bb)] := by
              intro a b k hk
              rcases fillLoop_newOnly m gids gid nk fillFuel keys _ _ keys'
                  bb hfill a b k hk with hold | hnew
              · obtain ⟨bb', hbb'⟩ := hex a b k hold
                exact ⟨bb', List.mem_append_left _ hbb'⟩
              · subst hnew
                exact ⟨bb, List.mem_append_right _ (List.mem_singleton.mpr rfl)⟩
            have hres := ih keys' (nk + 1) (acc ++ [(nk, bb)]) K B hsome hkb'
              hab' hnd' hcont' hex'
              (fun c hc => hcb c (List.mem_cons_of_mem _ hc))
            refine ⟨hres.1, hres.2.1, hres.2.2.1, ?_, ?_⟩
            · intro c hc hg
              rcases List.mem_cons.mp hc with hEq | hc
              · subst hEq
                have hseed := fillLoop_seed m gids gid nk fillFuel keys x y []
                  ⟨x, y, x, y⟩ keys' bb hx hy hkeysxy hgid hfill
                rw [hres.2.2.2.2 x y nk hseed]
                simp
              · exact hres.2.2.2.1 c hc hg
            · intro a b k hk
              exact hres.2.2.2.2 a b k
                (fillLoop_mono m gids gid nk fillFuel keys _ _ keys' bb hfill
                  a b k hk)

/-- Membership in the outer-loop cell list is exactly in-range-ness. -/
theorem mem_gridCells (m : Mask) (x y : ℕ) :
    (x, y) ∈ gridCells m ↔ x < m.W ∧ y < m.H := by
  unfold gridCells
  rw [List.mem_flatMap]
  constructor
  · rintro ⟨a, ha, hc⟩
    rw [List.mem_map] at hc
    obtain ⟨b, hb, hEq⟩ := hc
    rw [Prod.mk.injEq] at hEq
    obtain ⟨rfl, rfl⟩ := hEq
    exact ⟨List.mem_range.mp ha, List.mem_range.mp hb⟩
  · rintro ⟨hx, hy⟩
    exact ⟨x, List.mem_range.mpr hx,
      List.mem_map.mpr ⟨y, List.mem_range.mpr hy, rfl⟩⟩

/-!  Packing partitions the box entries: every entry lands in exactly one
atlas.  -/

/-- The packing `retain` pass only appends to the atlas. -/
theorem absorb_foldl_fst_append (rest : List (ℕ × BBox)) :
    ∀ (A K : List (ℕ × BBox)),
    ∃ t, (rest.foldl absorbStep (A, K)).1 = A ++ t := by
  induction rest with
  | nil => intro A K; exact ⟨[], by simp⟩
  | cons e rest ih =>
      intro A K
      rw [List.foldl_cons]
      unfold absorbStep
      by_cases h : A.any (fun o => e.2.intersects o.2) = true
      · rw [if_pos h]
        exact ih A (K ++ [e])
      · rw [if_neg h]
        obtain ⟨t, ht⟩ := ih (A ++ [e]) K
        refine ⟨[e] ++ t, ?_⟩
        show (List.foldl absorbStep (A ++ [e], K) rest).1 = A ++ ([e] ++ t)
        rw [ht, List.append_assoc]

/-- The packing `retain` pass splits its input between the atlas and the
kept remainder: nothing is lost or duplicated. -/
theorem absorb_foldl_perm (rest : List (ℕ × BBox)) :
    ∀ (A K : List (ℕ × BBox)),
    ((rest.foldl absorbStep (A, K)).1 ++ (rest.foldl absorbStep (A, K)).2).Perm
      ((A ++ K) ++ rest) := by
  induction rest with
  | nil => intro A K; simp
  | cons e rest ih =>
      intro A K
      rw [List.foldl_cons]
      unfold absorbStep
      by_cases h : A.any (fun o => e.2.intersects o.2) = true
      · rw [if_pos h]
        refine (ih A (K ++ [e])).trans ?_
        have hEq : (A ++ (K ++ [e])) ++ rest = (A ++ K) ++ (e :: rest) := by
          simp [List.append_assoc]
        rw [hEq]
      · rw [if_neg h]
        refine (ih (A ++ [e]) K).trans ?_
        have h₁ : ((A ++ [e]) ++ K) ++ rest = A ++ (e :: (K ++ rest)) := by
          simp [List.append_assoc]
        have h₂ : (A ++ K) ++ (e :: rest) = A ++ (K ++ (e :: rest)) := by
          simp [List.append_assoc]
        rw [h₁, h₂]
        exact List.Perm.append_left A List.perm_middle.symm

/-- The atlases emitted by packing are a permutation of the input entries:
each entry appears in exactly one atlas, provided the fuel covers the
input length (each round consumes at least the seed). -/
theorem packFuel_join_perm : ∀ (fuel : ℕ) (l : List (ℕ × BBox)),
    l.length ≤ fuel → (packFuel fuel l).flatten.Perm l := by
  intro fuel
  induction fuel with
  | zero =>
      intro l hl
      cases l with
      | nil => simp [packFuel]
      | cons e rest => simp at hl
  | succ fuel ih =>
      intro l hl
      cases l with
      | nil => simp [packFuel]
      | cons e rest =>
          have habs := absorb_foldl_perm rest [e] []
          have hfst := absorb_foldl_fst_append rest [e] []
          obtain ⟨t, ht⟩ := hfst
          have hlen : (rest.foldl absorbStep ([e], [])).2.length ≤ fuel := by
            have := habs.length_eq
            rw [List.length_append, List.length_append, List.length_append,
              ht, List.length_append] at this
            simp only [List.length_cons, List.length_singleton,
              List.length_nil] at this hl ⊢
            omega
          show ((rest.foldl absorbStep ([e], [])).1 ::
            packFuel fuel (rest.foldl absorbStep ([e], [])).2).flatten.Perm _
          rw [List.flatten_cons]
          refine (List.Perm.append_left _ (ih _ hlen)).trans ?_
          refine habs.trans ?_
          simp

/-- Entries with equal keys in a key-`Nodup` list are equal. -/
theorem nodup_keys_unique (B : List (ℕ × BBox))
    (hnd : (B.map Prod.fst).Nodup) (e₁ e₂ : ℕ × BBox) (h₁ : e₁ ∈ B)
    (h₂ : e₂ ∈ B) (hk : e₁.1 = e₂.1) : e₁ = e₂ := by
  induction B with
  | nil => cases h₁
  | cons a B ih =>
      rw [List.map_cons, List.nodup_cons] at hnd
      rcases List.mem_cons.mp h₁ with h₁' | h₁' <;>
        rcases List.mem_cons.mp h₂ with h₂' | h₂'
      · rw [h₁', h₂']
      · subst h₁'
        exact absurd (List.mem_map.mpr ⟨e₂, h₂', hk.symm⟩) hnd.1
      · subst h₂'
        exact absurd (List.mem_map.mpr ⟨e₁, h₁', hk⟩) hnd.1
      · exact ih hnd.2 h₁' h₂'

/-- In a duplicate-free list, a member is counted exactly once. -/
theorem countP_eq_one_of_nodup_mem {α : Type} [DecidableEq α] (l : List α)
    (hnd : l.Nodup) (e : α) (he : e ∈ l) :
    l.countP (fun a => decide (a = e)) = 1 := by
  induction l with
  | nil => cases he
  | cons a l ih =>
      rw [List.nodup_cons] at hnd
      rw [List.countP_cons]
      rcases List.mem_cons.mp he with rfl | he'
      · have hzero : l.countP (fun b => decide (b = e)) = 0 := by
          rw [List.countP_eq_zero]
          intro b hb
          simp only [decide_eq_true_eq]
          rintro rfl
          exact hnd.1 hb
        simp [hzero]
      · have hne : a ≠ e := fun hEq => hnd.1 (hEq ▸ he')
        simp [hne, ih hnd.2 he']

/-- Counting atlases that contain an element occurring exactly once in the
concatenation. -/
theorem countP_mem_once {α : Type} [DecidableEq α] (L : List (List α))
    (e : α) (h : L.flatten.countP (fun a => decide (a = e)) = 1) :
    L.countP (fun A => decide (e ∈ A)) = 1 := by
  induction L with
  | nil => simp [List.flatten] at h
  | cons A rest ih =>
      rw [List.flatten_cons, List.countP_append] at h
      rw [List.countP_cons]
      by_cases hA : e ∈ A
      · have hA1 : A.countP (fun a => decide (a = e)) ≠ 0 := by
          intro h0
          exact (List.countP_eq_zero.mp h0) e hA (by simp)
        have hzero : rest.countP (fun A => decide (e ∈ A)) = 0 := by
          rw [List.countP_eq_zero]
          intro A' hA'
          simp only [decide_eq_true_eq]
          intro hmem
          have hne : rest.flatten.countP (fun a => decide (a = e)) ≠ 0 := by
            intro h0
            exact (List.countP_eq_zero.mp h0) e
              (List.mem_flatten.mpr ⟨A', hA', hmem⟩) (by simp)
          omega
        simp [hA, hzero]
      · have hA0 : A.countP (fun a => decide (a = e)) = 0 := by
          rw [List.countP_eq_zero]
          intro b hb
          simp only [decide_eq_true_eq]
          rintro rfl
          exact hA hb
        have hrest : rest.flatten.countP (fun a => decide (a = e)) = 1 := by
          omega
        simp [hA, ih hrest]

/-- Claim C7, amended: on a successful run of the explode pixel pipeline,
every in-range solid (alpha > 0) pixel is assigned to **exactly one**
fragment: it carries exactly one group key, exactly one emitted box entry
bears that key, that entry's bounding box contains the pixel (so the union
of the emitted boxes *covers* the solid pixels — but only covers: a tight
box of a non-rectangular group also spans pixels outside the group, see
the counterexample, so equality with the solid set fails), and the pixel's
colour data is copied into exactly one atlas image by the per-atlas copy
loops. -/
theorem c7_pixel_exactly_once (m : Mask) (rng : ℕ → ℕ)
    (fuel1 fillFuel : ℕ) (K : Grid ℕ) (B : List (ℕ × BBox))
    (h : shatterPipeline m rng fuel1 fillFuel = some (K, B))
    (x y : ℕ) (hx : x < m.W) (hy : y < m.H) (hs : m.solid x y = true) :
    (∃ k, K x y = some k) ∧
    (∀ k, K x y = some k →
      B.countP (fun e => e.1 == k) = 1 ∧
      ∃ bb, (k, bb) ∈ B ∧ bb.inBox x y = true) ∧
    (∀ k, K x y = some k →
      (packAtlases B).countP (fun A => copiedIn K A x y) = 1) := by
  unfold shatterPipeline at h
  split at h
  · exact absurd h (by simp)
  · rename_i gids h1
    unfold phase3 at h
    have spec := phase3Go_spec m gids fillFuel (gridCells m) Grid.empty 0 []
      K B h
      (by intro a b k hk; simp [Grid.empty] at hk)
      (by intro e he; cases he)
      (by simp)
      (by intro e he; cases he)
      (by intro a b k hk; simp [Grid.empty] at hk)
      (by intro c hc
          exact (mem_gridCells m c.1 c.2).mp hc)
    obtain ⟨hexist, hnd, hcont, hcov, -⟩ := spec
    have hcovered : K x y ≠ none :=
      hcov (x, y) ((mem_gridCells m x y).mpr ⟨hx, hy⟩)
        (phase1Run_covered m rng fuel1 gids h1 x y hx hy hs)
    refine ⟨?_, ?_, ?_⟩
    · cases hK : K x y with
      | none => exact absurd hK hcovered
      | some k => exact ⟨k, rfl⟩
    · intro k hk
      obtain ⟨bb, hbb⟩ := hexist x y k hk
      constructor
      · have hcnt : List.count k (B.map Prod.fst) = 1 :=
          List.count_eq_one_of_mem hnd
            (List.mem_map.mpr ⟨(k, bb), hbb, rfl⟩)
        rw [List.count, List.countP_map] at hcnt
        convert hcnt using 2
      · exact ⟨bb, hbb, hcont (k, bb) hbb x y hk⟩
    · intro k hk
      obtain ⟨bb, hbb⟩ := hexist x y k hk
      have hinbb := hcont (k, bb) hbb x y hk
      have hndB : B.Nodup := hnd.of_map _
      have hperm := packFuel_join_perm B.length B (le_refl _)
      have hcj : (packAtlases B).flatten.countP
          (fun a => decide (a = (k, bb))) = 1 := by
        show (packFuel B.length B).flatten.countP
          (fun a => decide (a = (k, bb))) = 1
        rw [hperm.countP_eq]
        exact countP_eq_one_of_nodup_mem B hndB (k, bb) hbb
      have hcp := countP_mem_once (packAtlases B) (k, bb) hcj
      have hpred : ∀ A ∈ packAtlases B,
          copiedIn K A x y = decide ((k, bb) ∈ A) := by
        intro A hA
        by_cases hmem : (k, bb) ∈ A
        · rw [decide_eq_true hmem]
          unfold copiedIn
          rw [List.any_eq_true]
          exact ⟨(k, bb), hmem, by simp [hinbb, hk]⟩
        · rw [decide_eq_false hmem]
          unfold copiedIn
          rw [← Bool.not_eq_true, List.any_eq_true]
          rintro ⟨e, he, hpe⟩
          simp only [Bool.and_eq_true, beq_iff_eq, hk,
            Option.some.injEq] at hpe
          have heB : e ∈ B := by
            rw [← hperm.mem_iff]
            exact List.mem_flatten.mpr ⟨A, hA, he⟩
          have : e = (k, bb) :=
            nodup_keys_unique B hnd e (k, bb) heB hbb (by simp [hpe.2])
          exact hmem (this ▸ he)
      refine Eq.trans (List.countP_congr (fun A hA => ?_)) hcp
      rw [hpred A hA]
      simp only [decide_eq_true_eq]

/-- The C7 scenario mask: an 8×8 sprite whose only solid pixels are the
L-shape `(0,0)`, `(1,0)`, `(0,1)`. -/
def c7Mask : Mask :=
  { W := 8
    H := 8
    alpha := fun x y =>
      if (x = 0 ∧ y = 0) ∨ (x = 1 ∧ y = 0) ∨ (x = 0 ∧ y = 1) then 255
      else 0 }

/-- The C7 scenario random stream: all draws take the low end of their
range (seed = first ungrouped pixel, one 4×4 stamp at offset (0,0)). -/
def c7Rng : ℕ → ℕ := fun _ => 0

/-- Decidable statement of the per-pixel C7 conclusions, used to witness
`c7_pixel_exactly_once` on a concrete run. -/
def pixelOnceCheck (x y : ℕ) (r : Grid ℕ × List (ℕ × BBox)) : Bool :=
  match r.1 x y with
  | none => false
  | some k =>
      (r.2.countP (fun e => e.1 == k) == 1) &&
      r.2.any (fun e => e.1 == k && e.2.inBox x y) &&
      ((packAtlases r.2).countP (fun A => copiedIn r.1 A x y) == 1)

/-- Witness for the amended C7: on the concrete 8×8 L-shape run, the solid
pixel `(0, 0)` is keyed, exactly one box entry bears its key and contains
it, and exactly one atlas copies it. -/
theorem c7_pixel_exactly_once_witness :
    (shatterPipeline c7Mask c7Rng 5 50).map (pixelOnceCheck 0 0) =
      some true := by
  cases h : shatterPipeline c7Mask c7Rng 5 50 with
  | none =>
      have hs : (shatterPipeline c7Mask c7Rng 5 50).isSome = true := by decide
      rw [h] at hs
      cases hs
  | some r =>
      obtain ⟨K, B⟩ := r
      obtain ⟨⟨k, hk⟩, h2, h3⟩ :=
        c7_pixel_exactly_once c7Mask c7Rng 5 50 K B h 0 0 (by decide)
          (by decide) (by decide)
      obtain ⟨hcount, bb, hbb, hin⟩ := h2 k hk
      have hatlas := h3 k hk
      rw [Option.map_some']
      show some (pixelOnceCheck 0 0 (K, B)) = some true
      unfold pixelOnceCheck
      dsimp only
      rw [hk]
      have hany : B.any (fun e => e.1 == k && e.2.inBox 0 0) = true := by
        rw [List.any_eq_true]
        exact ⟨(k, bb), hbb, by simp [hin]⟩
      simp [hcount, hany, hatlas]

/-- Counterexample to claim C7 as stated: on the 8×8 L-shape mask the
single emitted fragment's tight bounding box is `[0,1] × [0,1]`, which
contains the *transparent* pixel `(1, 1)` — so the union of the emitted
bounding boxes' pixels strictly exceeds the set of solid pixels, refuting
"equals exactly".  (Coverage — every solid pixel inside some box — does
hold; it is the equality that fails, since a tight box of a
non-rectangular pixel group necessarily spans pixels outside the group.) -/
theorem c7_counterexample_box_union_not_exact :
    (shatterPipeline c7Mask c7Rng 5 50).map (fun r => r.2) =
      some [(0, ⟨0, 0, 1, 1⟩)] ∧
    BBox.inBox ⟨0, 0, 1, 1⟩ 1 1 = true ∧
    c7Mask.solid 1 1 = false := by
  refine ⟨by decide, by decide, by decide⟩

end ElectroShoot
